import Mathlib

/-!
Verification of `amd_gres_builder.py`, a node-local inventory script that
assembles SLURM gres.conf lines for AMD GPUs from `rocm-smi` and `lscpu`
output.  The Python data flow is embedded shallowly: parsed JSON dictionaries
become association lists that preserve insertion order, Python exceptions
(KeyError, AttributeError, ValueError, AssertionError) become `Except Unit`,
and the handful of `str` operations the script uses (`lower`, `replace`,
`split`, comparison, `int()` parsing) are given executable models over
`List Char` that agree with CPython on the ASCII data the script handles.
-/

namespace AmdGres

open scoped List

/-- ASCII lower-casing of a single character; models Python `str.lower` on the
ASCII strings handled by the script. -/
def lowerChar (c : Char) : Char :=
  if 65 ≤ c.toNat ∧ c.toNat ≤ 90 then Char.ofNat (c.toNat + 32) else c

/-- Models Python `str.lower`. -/
def lowerStr (s : String) : String := String.mk (s.toList.map lowerChar)

/-- Fuel-indexed left-to-right non-overlapping replacement over character
lists; the fuel is initialised with the length of the subject string, which is
always sufficient. -/
def replaceFuel (pat rep : List Char) : Nat → List Char → List Char
  | 0, l => l
  | _ + 1, [] => []
  | fuel + 1, c :: rest =>
    if !pat.isEmpty && pat.isPrefixOf (c :: rest) then
      rep ++ replaceFuel pat rep fuel (List.drop pat.length (c :: rest))
    else
      c :: replaceFuel pat rep fuel rest

/-- Models Python `s.replace(pat, rep)` (all occurrences, left to right). -/
def pyReplace (s pat rep : String) : String :=
  String.mk (replaceFuel pat.toList rep.toList s.toList.length s.toList)

/-- Strict lexicographic comparison of character lists by code point;
models Python `str` `<`. -/
def ltChars : List Char → List Char → Bool
  | [], [] => false
  | [], _ :: _ => true
  | _ :: _, [] => false
  | a :: as, b :: bs => if a = b then ltChars as bs else decide (a < b)

/-- Non-strict lexicographic comparison of character lists by code point;
models Python `str` `<=`. -/
def leChars : List Char → List Char → Bool
  | [], _ => true
  | _ :: _, [] => false
  | a :: as, b :: bs => if a = b then leChars as bs else decide (a < b)

/-- Models Python string `<=`. -/
def strLe (a b : String) : Bool := leChars a.toList b.toList

/-- Models Python string `<`. -/
def strLt (a b : String) : Bool := ltChars a.toList b.toList

/-- Models Python `sep.join(parts)`. -/
def pyJoin (sep : String) : List String → String
  | [] => ""
  | [x] => x
  | x :: y :: rest => x ++ sep ++ pyJoin sep (y :: rest)

/-! ### The link matrix built by `_rocm_smi_get_links`

`_rocm_smi_get_links` initialises an `nb_gpu × nb_gpu` table of `"-1"`
strings, then for every ordered pair `(i, j)` looks up the key
`"(topology) link type between drm devices i and j"` in the `system` section
of the parsed `--showtopo` JSON (default `""`), rewrites `PCIE`/`XGMI` to
`0`/`1`, and, when the result is non-empty, stores it at row `i`, column `j`
*and* at row `j`, column `i`.  The raw `system` section is abstracted as a
total function `sys : Nat → Nat → String` mapping the pair encoded in the key
to the stored string, `""` meaning absent; the key format is injective in
`(i, j)`, so nothing is lost. -/

/-- The `PCIE`/`XGMI` to `0`/`1` rewriting applied to each raw topology
entry (the two chained `replace` calls of the script). -/
def linkCode (s : String) : String := pyReplace (pyReplace s "PCIE" "0") "XGMI" "1"

/-- Read entry `(i, j)` of a row-major table of strings, `""` when out of
range. -/
def mgetD (m : List (List String)) (i j : Nat) : String := (m.getD i []).getD j ""

/-- Write entry `(i, j)` of a row-major table of strings (Python
`res[card_i]["Links"][j] = v`). -/
def setCell (m : List (List String)) (i j : Nat) (v : String) : List (List String) :=
  m.set i ((m.getD i []).set j v)

/-- The JSON key under `system` that carries the link type of the ordered
device pair `(i, j)` (`tag.format(i=i, j=j)` in the script, already
lower-case). -/
def topoTag (i j : Nat) : String :=
  "(topology) link type between drm devices " ++ toString i ++ " and " ++ toString j

/-- One iteration of the script's double loop: fetch the `(i, j)` entry,
rewrite it, and when non-empty store it at `(i, j)` and mirrored at
`(j, i)`. -/
def linksStep (sys : Nat → Nat → String) (m : List (List String)) (p : Nat × Nat) :
    List (List String) :=
  if linkCode (sys p.1 p.2) = "" then m
  else setCell (setCell m p.1 p.2 (linkCode (sys p.1 p.2))) p.2 p.1 (linkCode (sys p.1 p.2))

/-- The iteration order of the double loop: `(i, j)` for `i` then `j` over
`range nb_gpu`. -/
def pairSeq (n : Nat) : List (Nat × Nat) :=
  (List.range n).flatMap (fun i => (List.range n).map (fun j => (i, j)))

/-- The `Links` table produced by `_rocm_smi_get_links` for `n` GPUs from the
raw topology section `sys`: all cells start at `"-1"` and the double loop is
folded over them. -/
def buildLinksMatrix (n : Nat) (sys : Nat → Nat → String) : List (List String) :=
  (pairSeq n).foldl (linksStep sys) (List.replicate n (List.replicate n "-1"))

/-! ### Tracking a single cell through the fold -/

/-- Shape invariant: the table has `n` rows of `n` entries each. -/
def matShape (n : Nat) (m : List (List String)) : Prop :=
  m.length = n ∧ ∀ row ∈ m, row.length = n

/-- The effect of the whole fold on one cell, as a fold over only the loop
iterations that write that cell. -/
def cellUpd (sys : Nat → Nat → String) (acc : String) (p : Nat × Nat) : String :=
  if linkCode (sys p.1 p.2) = "" then acc else linkCode (sys p.1 p.2)

/-- Whether loop iteration `p` writes cell `(a, b)`. -/
def touchesCell (a b : Nat) (p : Nat × Nat) : Bool :=
  decide ((p.1 = a ∧ p.2 = b) ∨ (p.1 = b ∧ p.2 = a))

theorem length_setCell (m : List (List String)) (i j : Nat) (v : String) :
    (setCell m i j v).length = m.length := by
  simp [setCell]

theorem matShape_setCell {n : Nat} {m : List (List String)} (h : matShape n m)
    (i j : Nat) (v : String) : matShape n (setCell m i j v) := by
  obtain ⟨hlen, hrow⟩ := h
  rcases Nat.lt_or_ge i m.length with hi | hi
  · refine ⟨by simp [setCell, hlen], ?_⟩
    intro row hmem
    rcases List.mem_or_eq_of_mem_set hmem with h' | h'
    · exact hrow row h'
    · subst h'
      rw [List.length_set]
      have hg : m.getD i [] = m[i] := by
        simp [List.getD_eq_getElem?_getD, List.getElem?_eq_getElem hi]
      rw [hg]
      exact hrow _ (List.getElem_mem hi)
  · rw [setCell, List.set_eq_of_length_le hi]
    exact ⟨hlen, hrow⟩

theorem getD_set_ne {α : Type} {l : List α} {i j : Nat} {v d : α} (h : i ≠ j) :
    (l.set i v).getD j d = l.getD j d := by
  simp [List.getD_eq_getElem?_getD, List.getElem?_set_ne h]

theorem getD_set_self {α : Type} {l : List α} {i : Nat} {v d : α} (h : i < l.length) :
    (l.set i v).getD i d = v := by
  simp [List.getD_eq_getElem?_getD, List.getElem?_set_self h]

theorem mgetD_setCell_ne {m : List (List String)} {i j a b : Nat} {v : String}
    (h : ¬(a = i ∧ b = j)) : mgetD (setCell m i j v) a b = mgetD m a b := by
  by_cases hai : a = i
  · subst hai
    have hbj : b ≠ j := fun hbj => h ⟨rfl, hbj⟩
    rcases Nat.lt_or_ge a m.length with hlt | hge
    · rw [mgetD, setCell, getD_set_self hlt, getD_set_ne (fun hh => hbj hh.symm), mgetD]
    · rw [mgetD, setCell, List.set_eq_of_length_le hge, mgetD]
  · rw [mgetD, setCell, getD_set_ne (fun hh => hai hh.symm), mgetD]

theorem mgetD_setCell_self {n : Nat} {m : List (List String)} {i j : Nat} {v : String}
    (hm : matShape n m) (hi : i < n) (hj : j < n) :
    mgetD (setCell m i j v) i j = v := by
  obtain ⟨hlen, hrow⟩ := hm
  have hilt : i < m.length := by omega
  have hg : m.getD i [] = m[i] := by
    simp [List.getD_eq_getElem?_getD, List.getElem?_eq_getElem hilt]
  have hjlt : j < (m.getD i []).length := by
    rw [hg, hrow _ (List.getElem_mem hilt)]; exact hj
  rw [mgetD, setCell, getD_set_self hilt, getD_set_self hjlt]

theorem matShape_linksStep {n : Nat} {m : List (List String)}
    (hm : matShape n m) (sys : Nat → Nat → String) (p : Nat × Nat) :
    matShape n (linksStep sys m p) := by
  rw [linksStep]
  split
  · exact hm
  · exact matShape_setCell (matShape_setCell hm _ _ _) _ _ _

theorem mgetD_linksStep_not_touches {sys : Nat → Nat → String} {m : List (List String)}
    {a b : Nat} {p : Nat × Nat} (h : touchesCell a b p = false) :
    mgetD (linksStep sys m p) a b = mgetD m a b := by
  have hna : ¬((p.1 = a ∧ p.2 = b) ∨ (p.1 = b ∧ p.2 = a)) := by
    simpa [touchesCell] using h
  rw [linksStep]
  split
  · rfl
  · rw [mgetD_setCell_ne (fun hx => hna (Or.inr ⟨hx.2.symm, hx.1.symm⟩)),
      mgetD_setCell_ne (fun hx => hna (Or.inl ⟨hx.1.symm, hx.2.symm⟩))]

theorem mgetD_linksStep_touches {n : Nat} {sys : Nat → Nat → String}
    {m : List (List String)} {a b : Nat} {p : Nat × Nat}
    (hm : matShape n m) (ha : a < n) (hb : b < n)
    (ht : touchesCell a b p = true) (hv : linkCode (sys p.1 p.2) ≠ "") :
    mgetD (linksStep sys m p) a b = linkCode (sys p.1 p.2) := by
  have hor : (p.1 = a ∧ p.2 = b) ∨ (p.1 = b ∧ p.2 = a) := by
    simpa [touchesCell] using ht
  rw [linksStep, if_neg hv]
  rcases hor with ⟨h1, h2⟩ | ⟨h1, h2⟩
  · rw [h1, h2]
    by_cases hx : a = b
    · subst hx
      exact mgetD_setCell_self (matShape_setCell hm _ _ _) ha ha
    · rw [mgetD_setCell_ne (fun hc => hx hc.1)]
      exact mgetD_setCell_self hm ha hb
  · rw [h1, h2]
    exact mgetD_setCell_self (matShape_setCell hm _ _ _) ha hb

theorem foldl_linksStep_cell {n a b : Nat} {sys : Nat → Nat → String}
    (ha : a < n) (hb : b < n) :
    ∀ (l : List (Nat × Nat)) (m : List (List String)), matShape n m →
      mgetD (l.foldl (linksStep sys) m) a b
        = (l.filter (touchesCell a b)).foldl (cellUpd sys) (mgetD m a b) := by
  intro l
  induction l with
  | nil => intro m _; rfl
  | cons p t ih =>
    intro m hm
    rw [List.foldl_cons]
    by_cases ht : touchesCell a b p = true
    · rw [List.filter_cons_of_pos ht, List.foldl_cons]
      by_cases hv : linkCode (sys p.1 p.2) = ""
      · have hstep : linksStep sys m p = m := by rw [linksStep, if_pos hv]
        have hupd : cellUpd sys (mgetD m a b) p = mgetD m a b := by
          rw [cellUpd, if_pos hv]
        rw [hstep, hupd]
        exact ih m hm
      · have hupd : cellUpd sys (mgetD m a b) p = linkCode (sys p.1 p.2) := by
          rw [cellUpd, if_neg hv]
        rw [hupd, ih _ (matShape_linksStep hm sys p),
          mgetD_linksStep_touches hm ha hb ht hv]
    · have ht' : touchesCell a b p = false := by
        simpa using ht
      rw [List.filter_cons_of_neg (by simp [ht']),
        ih _ (matShape_linksStep hm sys p), mgetD_linksStep_not_touches ht']

theorem matShape_initial (n : Nat) :
    matShape n (List.replicate n (List.replicate n "-1")) := by
  constructor
  · simp
  · intro row hrow
    rw [List.eq_of_mem_replicate hrow]
    simp

theorem mgetD_initial {n a b : Nat} (ha : a < n) (hb : b < n) :
    mgetD (List.replicate n (List.replicate n "-1")) a b = "-1" := by
  rw [mgetD]
  simp [List.getD_eq_getElem?_getD, List.getElem?_replicate_of_lt, ha, hb]

theorem matShape_foldl_linksStep {n : Nat} {sys : Nat → Nat → String} :
    ∀ (l : List (Nat × Nat)) (m : List (List String)), matShape n m →
      matShape n (l.foldl (linksStep sys) m) := by
  intro l
  induction l with
  | nil => exact fun m hm => hm
  | cons p t ih => exact fun m hm => ih _ (matShape_linksStep hm sys p)

theorem matShape_buildLinksMatrix (n : Nat) (sys : Nat → Nat → String) :
    matShape n (buildLinksMatrix n sys) :=
  matShape_foldl_linksStep _ _ (matShape_initial n)

theorem mgetD_out_of_range {n a b : Nat} {m : List (List String)}
    (hm : matShape n m) (hab : n ≤ a ∨ n ≤ b) : mgetD m a b = "" := by
  obtain ⟨hlen, hrow⟩ := hm
  rcases Nat.lt_or_ge a m.length with hlt | hge
  · have hg : m.getD a [] = m[a] := by
      simp [List.getD_eq_getElem?_getD, List.getElem?_eq_getElem hlt]
    have hbn : n ≤ b := by
      rcases hab with h | h
      · omega
      · exact h
    have hblen : m[a].length ≤ b := by
      rw [hrow _ (List.getElem_mem hlt)]; exact hbn
    rw [mgetD, hg]
    simp [List.getD_eq_getElem?_getD, List.getElem?_eq_none hblen]
  · have hg : m.getD a [] = [] := by
      simp [List.getD_eq_getElem?_getD, List.getElem?_eq_none hge]
    rw [mgetD, hg]
    rfl

theorem range_filter_eq (n b : Nat) (hb : b < n) :
    (List.range n).filter (fun j => decide (j = b)) = [b] := by
  induction n with
  | zero => omega
  | succ n ih =>
    rw [List.range_succ, List.filter_append]
    by_cases hbn : b < n
    · rw [ih hbn]
      have : (List.filter (fun j => decide (j = b)) [n]) = [] := by
        simp
        omega
      rw [this, List.append_nil]
    · have hbe : b = n := by omega
      subst hbe
      have h1 : (List.range b).filter (fun j => decide (j = b)) = [] := by
        rw [List.filter_eq_nil_iff]
        intro a ha
        simp only [List.mem_range] at ha
        simp
        omega
      rw [h1]
      simp

theorem range_flatMap_single {α : Type} (n a : Nat) (g : Nat → List α) (ha : a < n)
    (hz : ∀ i, i < n → i ≠ a → g i = []) : (List.range n).flatMap g = g a := by
  induction n with
  | zero => omega
  | succ n ih =>
    rw [List.range_succ, List.flatMap_append]
    by_cases han : a < n
    · rw [ih han (fun i hi hia => hz i (by omega) hia)]
      have : List.flatMap [n] g = [] := by
        simp [hz n (by omega) (by omega)]
      rw [this, List.append_nil]
    · have hae : a = n := by omega
      subst hae
      have h1 : (List.range a).flatMap g = [] := by
        rw [List.flatMap_eq_nil_iff]
        intro x hx
        simp only [List.mem_range] at hx
        exact hz x (by omega) (by omega)
      rw [h1]
      simp

theorem range_flatMap_double {α : Type} (n a b : Nat) (g : Nat → List α)
    (hab : a < b) (hb : b < n)
    (hz : ∀ i, i < n → i ≠ a → i ≠ b → g i = []) :
    (List.range n).flatMap g = g a ++ g b := by
  induction n with
  | zero => omega
  | succ n ih =>
    rw [List.range_succ, List.flatMap_append]
    by_cases hbn : b < n
    · rw [ih hbn (fun i hi h1 h2 => hz i (by omega) h1 h2)]
      have : List.flatMap [n] g = [] := by
        simp [hz n (by omega) (by omega) (by omega)]
      rw [this, List.append_nil]
    · have hbe : b = n := by omega
      subst hbe
      rw [range_flatMap_single b a g hab
        (fun i hi hia => hz i (by omega) hia (by omega))]
      simp

theorem filter_pairSeq_diag (n a : Nat) (ha : a < n) :
    (pairSeq n).filter (touchesCell a a) = [(a, a)] := by
  rw [pairSeq, List.filter_flatMap]
  have hstep : ∀ i : Nat,
      List.filter (touchesCell a a) ((List.range n).map (fun j => (i, j)))
        = (List.filter (fun j => decide (i = a ∧ j = a)) (List.range n)).map
            (fun j => (i, j)) := by
    intro i
    rw [List.filter_map]
    congr 1
    apply List.filter_congr
    intro j _
    simp [touchesCell, Function.comp]
  rw [show (fun i => List.filter (touchesCell a a) (List.map (fun j => (i, j)) (List.range n)))
      = fun i => (List.filter (fun j => decide (i = a ∧ j = a)) (List.range n)).map
          (fun j => (i, j)) from funext hstep]
  have hz : ∀ i, i < n → i ≠ a →
      (List.filter (fun j => decide (i = a ∧ j = a)) (List.range n)).map
        (fun j => (i, j)) = [] := by
    intro i _ hia
    have : (List.filter (fun j => decide (i = a ∧ j = a)) (List.range n)) = [] := by
      rw [List.filter_eq_nil_iff]
      intro x _
      simp
      intro h
      exact absurd h hia
    rw [this]
    rfl
  rw [range_flatMap_single n a _ ha hz]
  have : (List.filter (fun j => decide (a = a ∧ j = a)) (List.range n))
      = (List.filter (fun j => decide (j = a)) (List.range n)) := by
    apply List.filter_congr
    intro j _
    simp
  rw [this, range_filter_eq n a ha]
  rfl

theorem filter_pairSeq_offdiag (n a b : Nat) (hab : a < b) (hb : b < n) :
    (pairSeq n).filter (touchesCell a b) = [(a, b), (b, a)] := by
  rw [pairSeq, List.filter_flatMap]
  have hne : a ≠ b := by omega
  have hstep : (fun i => List.filter (touchesCell a b)
        (List.map (fun j => (i, j)) (List.range n)))
      = fun i => (List.filter (fun j => decide ((i = a ∧ j = b) ∨ (i = b ∧ j = a)))
          (List.range n)).map (fun j => (i, j)) := by
    funext i
    rw [List.filter_map]
    congr 1
  rw [hstep]
  have hz : ∀ i, i < n → i ≠ a → i ≠ b →
      (List.filter (fun j => decide ((i = a ∧ j = b) ∨ (i = b ∧ j = a)))
        (List.range n)).map (fun j => (i, j)) = [] := by
    intro i _ hia hib
    have : (List.filter (fun j => decide ((i = a ∧ j = b) ∨ (i = b ∧ j = a)))
        (List.range n)) = [] := by
      rw [List.filter_eq_nil_iff]
      intro x _
      simp
      constructor
      · intro h; exact absurd h hia
      · intro h; exact absurd h hib
    rw [this]
    rfl
  rw [range_flatMap_double n a b _ hab hb hz]
  have h1 : (List.filter (fun j => decide ((a = a ∧ j = b) ∨ (a = b ∧ j = a)))
      (List.range n)) = (List.filter (fun j => decide (j = b)) (List.range n)) := by
    apply List.filter_congr
    intro j _
    simp [hne]
  have h2 : (List.filter (fun j => decide ((b = a ∧ j = b) ∨ (b = b ∧ j = a)))
      (List.range n)) = (List.filter (fun j => decide (j = a)) (List.range n)) := by
    apply List.filter_congr
    intro j _
    simp [hne.symm]
  rw [h1, h2, range_filter_eq n b hb, range_filter_eq n a (by omega)]
  rfl

theorem links_symm_helper (n : Nat) (sys : Nat → Nat → String) (i j : Nat) :
    mgetD (buildLinksMatrix n sys) i j = mgetD (buildLinksMatrix n sys) j i := by
  by_cases hi : i < n
  · by_cases hj : j < n
    · rw [buildLinksMatrix, foldl_linksStep_cell hi hj _ _ (matShape_initial n),
        foldl_linksStep_cell hj hi _ _ (matShape_initial n),
        mgetD_initial hi hj, mgetD_initial hj hi]
      have he : touchesCell j i = touchesCell i j :=
        funext fun p => decide_eq_decide.mpr or_comm
      rw [he]
    · rw [mgetD_out_of_range (matShape_buildLinksMatrix n sys) (Or.inr (by omega)),
        mgetD_out_of_range (matShape_buildLinksMatrix n sys) (Or.inl (by omega))]
  · rw [mgetD_out_of_range (matShape_buildLinksMatrix n sys) (Or.inl (by omega)),
      mgetD_out_of_range (matShape_buildLinksMatrix n sys) (Or.inr (by omega))]

/-- C2: for every raw topology input and every pair of GPU indices `i`, `j`,
the resolved link code stored at position `j` of GPU `i`'s link vector equals
the one stored at position `i` of GPU `j`'s link vector: every write of the
double loop in `_rocm_smi_get_links` mirrors its value to both cells, so the
table stays symmetric. -/
theorem links_matrix_symmetric (n : Nat) (sys : Nat → Nat → String) (i j : Nat) :
    mgetD (buildLinksMatrix n sys) i j = mgetD (buildLinksMatrix n sys) j i :=
  links_symm_helper n sys i j

/-- C3 (amended): for an unordered GPU pair `a < b` the builder reads both the
`(a, b)` and the `(b, a)` raw entries, but it does *not* combine them by
maximum: each present direction is mirrored into both cells in loop order, so
when both directions are present the `(b, a)` entry — visited last — wins, and
when neither is present the cell keeps its initial sentinel `"-1"` (not `0`).
Both cells of the pair receive that same resolved value. -/
theorem links_pair_last_write (n : Nat) (sys : Nat → Nat → String) (a b : Nat)
    (hab : a < b) (hb : b < n) :
    mgetD (buildLinksMatrix n sys) a b
        = (if linkCode (sys b a) = ""
            then (if linkCode (sys a b) = "" then "-1" else linkCode (sys a b))
            else linkCode (sys b a))
      ∧ mgetD (buildLinksMatrix n sys) b a
        = (if linkCode (sys b a) = ""
            then (if linkCode (sys a b) = "" then "-1" else linkCode (sys a b))
            else linkCode (sys b a)) := by
  have ha : a < n := by omega
  have h1 : mgetD (buildLinksMatrix n sys) a b
      = (if linkCode (sys b a) = ""
          then (if linkCode (sys a b) = "" then "-1" else linkCode (sys a b))
          else linkCode (sys b a)) := by
    rw [buildLinksMatrix, foldl_linksStep_cell ha hb _ _ (matShape_initial n),
      mgetD_initial ha hb, filter_pairSeq_offdiag n a b hab hb]
    simp only [List.foldl_cons, List.foldl_nil, cellUpd]
  exact ⟨h1, (links_symm_helper n sys b a).trans h1⟩

/-- Witness for C3's amended theorem at a concrete two-GPU topology. -/
def sysCexC3 : Nat → Nat → String := fun i j =>
  if i = 0 ∧ j = 1 then "XGMI" else if i = 1 ∧ j = 0 then "PCIE" else ""

theorem links_pair_last_write_witness :
    mgetD (buildLinksMatrix 2 sysCexC3) 0 1
        = (if linkCode (sysCexC3 1 0) = ""
            then (if linkCode (sysCexC3 0 1) = "" then "-1" else linkCode (sysCexC3 0 1))
            else linkCode (sysCexC3 1 0)) :=
  (links_pair_last_write 2 sysCexC3 0 1 (by decide) (by decide)).1

/-- Models the claim's words for C3: resolve an unordered pair to the maximum
of the two numeric codes, an absent direction counting as `0`. -/
def parseNatAux : List Char → Nat → Option Nat
  | [], acc => some acc
  | c :: rest, acc =>
    if 48 ≤ c.toNat ∧ c.toNat ≤ 57 then parseNatAux rest (acc * 10 + (c.toNat - 48))
    else none

/-- Parse a non-empty all-digit string (models `int()` on a decimal string
without sign). -/
def parseNatChars : List Char → Option Nat
  | [] => none
  | c :: rest => parseNatAux (c :: rest) 0

/-- The numeric value of a resolved link entry, `0` when absent. -/
def specLinkNum (s : String) : Nat := (parseNatChars (linkCode s).toList).getD 0

/-- Modelled from the spec's words for C3 only: the claimed max-combine
resolution of an unordered pair. -/
def specMaxCombine (sys : Nat → Nat → String) (i j : Nat) : String :=
  toString (max (specLinkNum (sys i j)) (specLinkNum (sys j i)))

/-- Counterexample to C3 as stated: with `(0,1) = XGMI` and `(1,0) = PCIE`
present in the raw data, the maximum of the numeric codes is `1`, but the
builder stores `"0"` (the `(1,0)` direction, written last, overwrites). -/
theorem links_max_combine_cex :
    mgetD (buildLinksMatrix 2 sysCexC3) 0 1 = "0"
      ∧ specMaxCombine sysCexC3 0 1 = "1"
      ∧ mgetD (buildLinksMatrix 2 sysCexC3) 0 1 ≠ specMaxCombine sysCexC3 0 1 := by
  refine ⟨by decide, by decide, by decide⟩

/-- C4 (amended): the self-link entry of every GPU equals the sentinel `"-1"`
for every raw topology input in which the `system` table has no `(i, i)`
self-pair entry (`rocm-smi` never reports a link of a device with itself);
an adversarial raw input carrying such an entry would overwrite the
sentinel. -/
theorem links_self_sentinel (n : Nat) (sys : Nat → Nat → String) (i : Nat)
    (hi : i < n) (hself : linkCode (sys i i) = "") :
    mgetD (buildLinksMatrix n sys) i i = "-1" := by
  rw [buildLinksMatrix, foldl_linksStep_cell hi hi _ _ (matShape_initial n),
    mgetD_initial hi hi, filter_pairSeq_diag n i hi]
  simp only [List.foldl_cons, List.foldl_nil, cellUpd]
  rw [if_pos hself]

theorem links_self_sentinel_witness :
    mgetD (buildLinksMatrix 2 (fun _ _ => "")) 1 1 = "-1" :=
  links_self_sentinel 2 (fun _ _ => "") 1 (by decide) (by decide)

/-- Counterexample to C4 as stated over *every* raw input: a raw topology
that carries a `(0, 0)` self-entry `PCIE` makes the builder overwrite the
diagonal sentinel with `"0"`. -/
theorem links_self_sentinel_cex :
    mgetD (buildLinksMatrix 1 (fun _ _ => "PCIE")) 0 0 = "0"
      ∧ mgetD (buildLinksMatrix 1 (fun _ _ => "PCIE")) 0 0 ≠ "-1" := by
  refine ⟨by decide, by decide⟩

/-! ### A model of Python `sorted`

Python's sort is a stable comparison sort; it is modelled by a stable
insertion sort.  All theorems that depend on a sort result only use
sortedness, the permutation property and (under distinct keys) uniqueness of
the sorted arrangement, which pin down the same list Python produces. -/

/-- Stable insertion: the new element is placed after every existing element
that compares `le` to it. -/
def pyInsert {α : Type} (le : α → α → Bool) (a : α) : List α → List α
  | [] => [a]
  | b :: bs => if le b a then b :: pyInsert le a bs else a :: b :: bs

/-- Model of Python `sorted(l)` under comparison `le`. -/
def pySort {α : Type} (le : α → α → Bool) (l : List α) : List α :=
  l.foldl (fun acc a => pyInsert le a acc) []

theorem pyInsert_perm {α : Type} (le : α → α → Bool) (a : α) :
    ∀ l : List α, pyInsert le a l ~ a :: l := by
  intro l
  induction l with
  | nil => exact List.Perm.refl _
  | cons b bs ih =>
    rw [pyInsert]
    by_cases h : le b a = true
    · rw [if_pos h]
      exact List.Perm.trans (List.Perm.cons b ih) (List.Perm.swap a b bs)
    · rw [if_neg h]

theorem pySort_perm_aux {α : Type} (le : α → α → Bool) :
    ∀ (l acc : List α), (l.foldl (fun acc a => pyInsert le a acc) acc) ~ acc ++ l := by
  intro l
  induction l with
  | nil => intro acc; simp
  | cons a t ih =>
    intro acc
    rw [List.foldl_cons]
    have h2 : (pyInsert le a acc) ++ t ~ (a :: acc) ++ t :=
      (pyInsert_perm le a acc).append_right t
    have h3 : (a :: acc) ++ t ~ acc ++ (a :: t) := by
      rw [List.cons_append]
      exact List.perm_middle.symm
    exact (ih (pyInsert le a acc)).trans (h2.trans h3)

theorem pySort_perm {α : Type} (le : α → α → Bool) (l : List α) : pySort le l ~ l := by
  have := pySort_perm_aux le l []
  simpa [pySort] using this

theorem pyInsert_pairwise {α : Type} {le : α → α → Bool}
    (total : ∀ a b, (le a b || le b a) = true)
    (htrans : ∀ a b c, le a b = true → le b c = true → le a c = true)
    (a : α) : ∀ l, l.Pairwise (fun x y => le x y = true) →
      (pyInsert le a l).Pairwise (fun x y => le x y = true) := by
  intro l
  induction l with
  | nil => intro _; simp [pyInsert]
  | cons b bs ih =>
    intro hp
    rw [List.pairwise_cons] at hp
    obtain ⟨hb, hbs⟩ := hp
    rw [pyInsert]
    by_cases h : le b a = true
    · rw [if_pos h, List.pairwise_cons]
      refine ⟨?_, ih hbs⟩
      intro x hx
      have hx' : x ∈ a :: bs := ((pyInsert_perm le a bs).mem_iff).mp hx
      rcases List.mem_cons.mp hx' with rfl | hxbs
      · exact h
      · exact hb x hxbs
    · have hab : le a b = true := by
        have ht := total a b
        rw [Bool.or_eq_true] at ht
        rcases ht with h1 | h1
        · exact h1
        · exact absurd h1 h
      rw [if_neg h, List.pairwise_cons]
      refine ⟨?_, List.pairwise_cons.mpr ⟨hb, hbs⟩⟩
      intro x hx
      rcases List.mem_cons.mp hx with rfl | hxbs
      · exact hab
      · exact htrans a b x hab (hb x hxbs)

theorem pySort_pairwise {α : Type} {le : α → α → Bool}
    (total : ∀ a b, (le a b || le b a) = true)
    (htrans : ∀ a b c, le a b = true → le b c = true → le a c = true)
    (l : List α) : (pySort le l).Pairwise (fun x y => le x y = true) := by
  have aux : ∀ (t acc : List α), acc.Pairwise (fun x y => le x y = true) →
      (t.foldl (fun acc a => pyInsert le a acc) acc).Pairwise
        (fun x y => le x y = true) := by
    intro t
    induction t with
    | nil => exact fun acc h => h
    | cons a u ih =>
      intro acc hacc
      rw [List.foldl_cons]
      exact ih _ (pyInsert_pairwise total htrans a acc hacc)
  exact aux l [] List.Pairwise.nil

/-- Two sorted lists that are permutations of each other coincide, provided
the comparison is antisymmetric on the elements involved. -/
theorem sorted_perm_unique {α : Type} {le : α → α → Bool}
    (hanti : ∀ a b, le a b = true → le b a = true → a = b) :
    ∀ (l₁ l₂ : List α), l₁ ~ l₂ → l₁.Pairwise (fun x y => le x y = true) →
      l₂.Pairwise (fun x y => le x y = true) → l₁ = l₂ := by
  intro l₁
  induction l₁ with
  | nil =>
    intro l₂ hp _ _
    exact (hp.symm.eq_nil).symm
  | cons a t ih =>
    intro l₂ hp hs₁ hs₂
    cases l₂ with
    | nil => exact absurd hp.eq_nil (by simp)
    | cons b u =>
      rw [List.pairwise_cons] at hs₁ hs₂
      obtain ⟨ha, hts⟩ := hs₁
      obtain ⟨hbu, hus⟩ := hs₂
      have hab : a = b := by
        have hamem : a ∈ b :: u := hp.mem_iff.mp (List.mem_cons_self a t)
        have hbmem : b ∈ a :: t := hp.symm.mem_iff.mp (List.mem_cons_self b u)
        rcases List.mem_cons.mp hamem with h1 | h1
        · exact h1
        · rcases List.mem_cons.mp hbmem with h2 | h2
          · exact h2.symm
          · exact hanti a b (ha b h2) (hbu a h1)
      subst hab
      have hperm : t ~ u := hp.cons_inv
      rw [ih u hperm hts hus]

theorem leChars_cons_cons (x y : Char) (as bs : List Char) :
    leChars (x :: as) (y :: bs) = if x = y then leChars as bs else decide (x < y) := rfl

theorem leChars_total : ∀ a b : List Char, (leChars a b || leChars b a) = true := by
  intro a
  induction a with
  | nil => intro b; simp [leChars]
  | cons x as ih =>
    intro b
    cases b with
    | nil => simp [leChars]
    | cons y bs =>
      rw [leChars_cons_cons, leChars_cons_cons]
      by_cases hxy : x = y
      · subst hxy
        rw [if_pos rfl, if_pos rfl]
        exact ih bs
      · rw [if_neg hxy, if_neg (fun h : y = x => hxy h.symm)]
        rcases lt_or_gt_of_ne hxy with h | h
        · simp [h]
        · simp [h]

theorem leChars_trans : ∀ a b c : List Char,
    leChars a b = true → leChars b c = true → leChars a c = true := by
  intro a
  induction a with
  | nil => intro b c _ _; simp [leChars]
  | cons x as ih =>
    intro b c hab hbc
    cases b with
    | nil => simp [leChars] at hab
    | cons y bs =>
      cases c with
      | nil => simp [leChars] at hbc
      | cons z cs =>
        rw [leChars_cons_cons] at hab hbc ⊢
        by_cases hxy : x = y
        · subst hxy
          rw [if_pos rfl] at hab
          by_cases hxz : x = z
          · subst hxz
            rw [if_pos rfl] at hbc ⊢
            exact ih bs cs hab hbc
          · rw [if_neg hxz] at hbc ⊢
            exact hbc
        · rw [if_neg hxy] at hab
          have h1 : x < y := of_decide_eq_true hab
          by_cases hyz : y = z
          · subst hyz
            rw [if_neg hxy]
            exact hab
          · rw [if_neg hyz] at hbc
            have h2 : y < z := of_decide_eq_true hbc
            have hxz : x ≠ z := ne_of_lt (lt_trans h1 h2)
            rw [if_neg hxz]
            exact decide_eq_true (lt_trans h1 h2)

theorem leChars_antisymm : ∀ a b : List Char,
    leChars a b = true → leChars b a = true → a = b := by
  intro a
  induction a with
  | nil =>
    intro b _ hba
    cases b with
    | nil => rfl
    | cons y bs => simp [leChars] at hba
  | cons x as ih =>
    intro b hab hba
    cases b with
    | nil => simp [leChars] at hab
    | cons y bs =>
      rw [leChars_cons_cons] at hab hba
      by_cases hxy : x = y
      · subst hxy
        rw [if_pos rfl] at hab hba
        rw [ih bs hab hba]
      · rw [if_neg hxy] at hab
        rw [if_neg (fun h : y = x => hxy h.symm)] at hba
        have h1 : x < y := of_decide_eq_true hab
        have h2 : y < x := of_decide_eq_true hba
        exact absurd (lt_trans h1 h2) (lt_irrefl x)

theorem strLe_total : ∀ a b : String, (strLe a b || strLe b a) = true :=
  fun a b => leChars_total a.toList b.toList

theorem strLe_trans : ∀ a b c : String,
    strLe a b = true → strLe b c = true → strLe a c = true :=
  fun a b c hab hbc => leChars_trans a.toList b.toList c.toList hab hbc

theorem strLe_antisymm : ∀ a b : String,
    strLe a b = true → strLe b a = true → a = b := by
  intro a b hab hba
  exact String.ext (leChars_antisymm a.toList b.toList hab hba)

/-! ### The NUMA CPU-range collapsing of `_lscpu_get_numa_cpus` -/

/-- Python `min` over a CPU id list (`0` for `[]`, which `lscpu` parsing never
produces for a stored node). -/
def listMinI : List Int → Int
  | [] => 0
  | x :: xs => xs.foldl min x

/-- Python `max` over a CPU id list. -/
def listMaxI : List Int → Int
  | [] => 0
  | x :: xs => xs.foldl max x

/-- The integers from `a` to `b` inclusive: Python `range(a, b + 1)`. -/
def intRange (a b : Int) : List Int :=
  (List.range (b + 1 - a).toNat).map (fun (k : Nat) => a + (k : Int))

/-- The script's contiguity test `set(val) == set(range(cpu_min, cpu_max + 1))`
as a Boolean over the collected id list. -/
def isContiguous (val : List Int) : Bool :=
  (intRange (listMinI val) (listMaxI val)).all (fun x => val.contains x)
    && val.all (fun x => (intRange (listMinI val) (listMaxI val)).contains x)

/-- The per-node conversion of `_lscpu_get_numa_cpus`: collapse the collected
CPU id list to `"min-max"` when its value set is exactly
`range(min, max + 1)`; otherwise join the ids with commas after sorting their
*decimal string forms* (the script sorts `[str(v) for v in ...]`). -/
def collapseCpus (val : List Int) : String :=
  if isContiguous val then toString (listMinI val) ++ "-" ++ toString (listMaxI val)
  else pyJoin "," (pySort strLe (val.map (fun v => toString v)))

theorem mem_intRange {a b x : Int} : x ∈ intRange a b ↔ (a ≤ x ∧ x ≤ b) := by
  rw [intRange]
  constructor
  · intro hx
    obtain ⟨k, hk, hes⟩ := List.mem_map.mp hx
    rw [List.mem_range] at hk
    omega
  · rintro ⟨h1, h2⟩
    apply List.mem_map.mpr
    refine ⟨(x - a).toNat, ?_, ?_⟩
    · rw [List.mem_range]
      omega
    · omega

theorem isContiguous_iff (val : List Int) :
    isContiguous val = true
      ↔ ∀ x : Int, x ∈ val ↔ (listMinI val ≤ x ∧ x ≤ listMaxI val) := by
  rw [isContiguous, Bool.and_eq_true, List.all_eq_true, List.all_eq_true]
  constructor
  · rintro ⟨h1, h2⟩ x
    constructor
    · intro hx
      exact mem_intRange.mp (List.elem_iff.mp (h2 x hx))
    · intro hb
      exact List.elem_iff.mp (h1 x (mem_intRange.mpr hb))
  · intro h
    constructor
    · intro y hy
      exact List.elem_iff.mpr ((h y).mpr (mem_intRange.mp hy))
    · intro x hx
      exact List.elem_iff.mpr (mem_intRange.mpr ((h x).mp hx))

/-- C5 (amended): for every non-empty CPU id list collected for a NUMA node,
the layer emits `"min-max"` exactly when the id set is the contiguous run
from its minimum to its maximum; otherwise it emits the comma-joined list of
the ids sorted *lexicographically as decimal strings* (Python sorts the
stringified ids, so for example `{2, 3, 10}` yields `"10,2,3"`, not the
numerically sorted `"2,3,10"`). -/
theorem numa_collapse (val : List Int) (hne : val ≠ []) :
    ((∀ x : Int, x ∈ val ↔ (listMinI val ≤ x ∧ x ≤ listMaxI val)) →
        collapseCpus val = toString (listMinI val) ++ "-" ++ toString (listMaxI val))
      ∧ (¬(∀ x : Int, x ∈ val ↔ (listMinI val ≤ x ∧ x ≤ listMaxI val)) →
          ∃ l : List String, l ~ (val.map (fun v => toString v))
            ∧ l.Pairwise (fun a b => strLe a b = true)
            ∧ collapseCpus val = pyJoin "," l) := by
  constructor
  · intro hcont
    rw [collapseCpus, if_pos ((isContiguous_iff val).mpr hcont)]
  · intro hncont
    have hfalse : ¬ isContiguous val = true :=
      fun h => hncont ((isContiguous_iff val).mp h)
    rw [collapseCpus, if_neg hfalse]
    exact ⟨pySort strLe (val.map (fun v => toString v)),
      pySort_perm _ _, pySort_pairwise strLe_total strLe_trans _, rfl⟩

/-- Witness for C5's amended theorem: the claim's own examples, a contiguous
set collapsing to a range and a gap set joining the (here single-digit, hence
numerically ordered) ids. -/
theorem numa_collapse_witness :
    collapseCpus [2, 3, 4, 5] = "2-5" ∧ collapseCpus [2, 3, 5] = "2,3,5" := by
  constructor
  · have h := (numa_collapse [2, 3, 4, 5] (by decide)).1
    have hc : ∀ x : Int, x ∈ ([2, 3, 4, 5] : List Int)
        ↔ (listMinI [2, 3, 4, 5] ≤ x ∧ x ≤ listMaxI [2, 3, 4, 5]) := by
      intro x
      have h1 : listMinI ([2, 3, 4, 5] : List Int) = 2 := by decide
      have h2 : listMaxI ([2, 3, 4, 5] : List Int) = 5 := by decide
      rw [h1, h2]
      simp only [List.mem_cons, List.not_mem_nil, or_false]
      omega
    rw [h hc]
    decide
  · decide

/-- Counterexample to C5 as stated: the non-contiguous set `{2, 3, 10}` is
joined in *string* order as `"10,2,3"`, not in the numerically sorted order
`"2,3,10"` the claim requires. -/
theorem numa_collapse_cex :
    collapseCpus [2, 3, 10] = "10,2,3" ∧ collapseCpus [2, 3, 10] ≠ "2,3,10" := by
  refine ⟨by decide, by decide⟩

theorem lookup_mem {α β : Type} [BEq α] [LawfulBEq α] {l : List (α × β)} {k : α} {v : β}
    (h : l.lookup k = some v) : (k, v) ∈ l := by
  induction l with
  | nil => simp [List.lookup] at h
  | cons p t ih =>
    obtain ⟨pk, pv⟩ := p
    rcases hbeq : (k == pk) with _ | _
    · simp only [List.lookup, hbeq] at h
      exact List.mem_cons_of_mem _ (ih h)
    · simp only [List.lookup, hbeq] at h
      have hk : k = pk := eq_of_beq hbeq
      subst hk
      injection h with h2
      subst h2
      exact List.mem_cons_self _ _

/-! ### Type normalization (`_RSMI_CARD_SERIE_MAP` and `_rocm_smi_get_type`) -/

/-- The static series table `_RSMI_CARD_SERIE_MAP`. -/
def rsmiCardSerieMap : List (String × String) :=
  [("Instinct MI100", "mi100"), ("Instinct MI210", "mi210"),
   ("Instinct MI250", "mi250"), ("Instinct MI250X", "mi250x"),
   ("Instinct MI300A", "mi300a"), ("Instinct MI300X", "mi300x")]

/-- `_RSMI_CARD_SERIE_MAP.get(cs, cs.replace(" ", "_").lower())`: the series
normalization applied by `_rocm_smi_get_type`. -/
def normalizeCardSerie (s : String) : String :=
  (rsmiCardSerieMap.lookup s).getD (lowerStr (pyReplace s " " "_"))

/-- C6: a known product-series string maps to its short code from the static
table, and an unrecognized one falls back to the lower-cased slug with spaces
replaced by underscores. -/
theorem type_normalization (s : String) :
    (∀ c : String, (s, c) ∈ rsmiCardSerieMap → normalizeCardSerie s = c)
      ∧ ((∀ c : String, (s, c) ∉ rsmiCardSerieMap) →
          normalizeCardSerie s = lowerStr (pyReplace s " " "_")) := by
  constructor
  · intro c hc
    simp only [rsmiCardSerieMap, List.mem_cons, List.not_mem_nil, or_false,
      Prod.mk.injEq] at hc
    rcases hc with ⟨rfl, rfl⟩ | ⟨rfl, rfl⟩ | ⟨rfl, rfl⟩ | ⟨rfl, rfl⟩ | ⟨rfl, rfl⟩
      | ⟨rfl, rfl⟩ <;> decide
  · intro h
    have hnone : rsmiCardSerieMap.lookup s = none := by
      rcases hlk : rsmiCardSerieMap.lookup s with _ | c
      · rfl
      · exact absurd (lookup_mem hlk) (h c)
    rw [normalizeCardSerie, hnone]
    rfl

/-- Witness for C6: the claim's two examples, a known series and an
unrecognized one. -/
theorem type_normalization_witness :
    normalizeCardSerie "Instinct MI250X" = "mi250x"
      ∧ normalizeCardSerie "Instinct FutureChip" = "instinct_futurechip" := by
  constructor
  · exact (type_normalization "Instinct MI250X").1 "mi250x" (by decide)
  · have hnm : ∀ c : String, ("Instinct FutureChip", c) ∉ rsmiCardSerieMap := by
      intro c hc
      simp only [rsmiCardSerieMap, List.mem_cons, List.not_mem_nil, or_false,
        Prod.mk.injEq] at hc
      rcases hc with ⟨h1, _⟩ | ⟨h1, _⟩ | ⟨h1, _⟩ | ⟨h1, _⟩ | ⟨h1, _⟩ | ⟨h1, _⟩ <;>
        exact absurd h1 (by decide)
    rw [(type_normalization "Instinct FutureChip").2 hnm]
    decide

/-! ### The per-GPU record model and the dictionary join `_merge_dicts` -/

/-- A value stored in a per-GPU record: the script stores strings, the raw
`Links` list of strings, the integer constant `Count`, and Python `None`
(a `Cores` lookup miss). -/
inductive GVal : Type
  | s (v : String)
  | ls (v : List String)
  | n (v : Int)
  | null
deriving DecidableEq

/-- A per-GPU record: an insertion-ordered association list modelling a
Python dict. -/
abbrev Inner : Type := List (String × GVal)

/-- A per-facet query result: GPU key to record, in discovery order. -/
abbrev Dict : Type := List (String × Inner)

/-- Python dict assignment `d[k] = v`: overwrite in place when the key
exists, append otherwise. -/
def setPair {β : Type} : List (String × β) → String → β → List (String × β)
  | [], k, v => [(k, v)]
  | (k', v') :: rest, k, v =>
    if k' = k then (k, v) :: rest else (k', v') :: setPair rest k v

theorem lookup_setPair {β : Type} (l : List (String × β)) (k k' : String) (v : β) :
    (setPair l k v).lookup k' = if k' = k then some v else l.lookup k' := by
  induction l with
  | nil =>
    by_cases h : k' = k
    · have hb : (k' == k) = true := by simp [h]
      simp [setPair, List.lookup, hb, h]
    · have hb : (k' == k) = false := by simp [h]
      simp [setPair, List.lookup, hb, h]
  | cons p t ih =>
    obtain ⟨pk, pv⟩ := p
    rw [setPair]
    by_cases hpk : pk = k
    · subst hpk
      rw [if_pos rfl]
      by_cases h : k' = pk
      · have hb : (k' == pk) = true := by simp [h]
        simp [List.lookup, hb, h]
      · have hb : (k' == pk) = false := by simp [h]
        simp [List.lookup, hb, h]
    · rw [if_neg hpk]
      by_cases h : k' = pk
      · have hb : (k' == pk) = true := by simp [h]
        have hne : ¬(k' = k) := fun he => hpk (h ▸ he)
        simp [List.lookup, hb, hne]
      · have hb : (k' == pk) = false := by simp [h]
        simp only [List.lookup, hb]
        exact ih

/-- Sequential effectful map with Python's evaluation order: the first raised
exception aborts the whole computation. -/
def mapMExcept {α β : Type} (f : α → Except Unit β) : List α → Except Unit (List β)
  | [] => .ok []
  | a :: as =>
    match f a with
    | .error e => .error e
    | .ok b =>
      match mapMExcept f as with
      | .error e => .error e
      | .ok bs => .ok (b :: bs)

theorem mapMExcept_ok_of_forall {α β : Type} (f : α → Except Unit β) (g : α → β) :
    ∀ l : List α, (∀ a ∈ l, f a = .ok (g a)) → mapMExcept f l = .ok (l.map g) := by
  intro l
  induction l with
  | nil => intro _; rfl
  | cons a t ih =>
    intro h
    rw [mapMExcept, h a (List.mem_cons_self a t),
      ih (fun x hx => h x (List.mem_cons_of_mem a hx))]
    rfl

theorem mapMExcept_error_of_mem {α β : Type} (f : α → Except Unit β) :
    ∀ l : List α, (∃ a ∈ l, f a = .error ()) → mapMExcept f l = .error () := by
  intro l
  induction l with
  | nil => rintro ⟨a, ha, _⟩; exact absurd ha (List.not_mem_nil a)
  | cons b t ih =>
    rintro ⟨a, ha, herr⟩
    rw [mapMExcept]
    rcases List.mem_cons.mp ha with rfl | hat
    · rw [herr]
    · rcases hfb : f b with _ | v
      · rfl
      · rw [ih ⟨a, hat, herr⟩]

/-- The inner union `{k: v for d in dicts for k, v in d[key].items()}`:
fields of later dictionaries overwrite earlier ones. -/
def innerUnion (vs : List Inner) : Inner :=
  vs.foldl (fun acc d => d.foldl (fun a p => setPair a p.1 p.2) acc) []

/-- `d[key]` for every dictionary in turn (`KeyError` on a miss). -/
def lookupAll (ds : List Dict) (k : String) : Except Unit (List Inner) :=
  mapMExcept (fun d => match d.lookup k with
    | some v => .ok v
    | none => .error ()) ds

/-- Total variant of `lookupAll` used to express its success value. -/
def lookupAllD (ds : List Dict) (k : String) : List Inner :=
  ds.map (fun d => (d.lookup k).getD [])

/-- `_merge_dicts(*dicts)`: the key list comes from the first dictionary (in
order), every dictionary is indexed with each of those keys, and the per-key
records are unioned left to right. -/
def mergeDicts (ds : List Dict) : Except Unit Dict :=
  match ds with
  | [] => .error ()
  | d0 :: _ =>
    mapMExcept (fun k =>
      match lookupAll ds k with
      | .ok vs => .ok (k, innerUnion vs)
      | .error _ => .error ()) (d0.map (fun p => p.1))

/-- C10: the join keeps exactly the key set (and order) of the first mapping,
silently dropping keys that appear only in later mappings, and raises as soon
as a key of the first mapping is missing from any mapping, instead of
emitting a partial record. -/
theorem merge_dicts_behavior (d0 : Dict) (rest : List Dict) :
    ((∀ k, k ∈ d0.map (fun p => p.1) → ∀ d ∈ d0 :: rest, (d.lookup k).isSome = true) →
        ∃ m : Dict, mergeDicts (d0 :: rest) = .ok m
          ∧ m.map (fun p => p.1) = d0.map (fun p => p.1)
          ∧ ∀ k, k ∉ d0.map (fun p => p.1) → ∀ v, (k, v) ∉ m)
      ∧ ((∃ k, k ∈ d0.map (fun p => p.1) ∧ ∃ d, d ∈ d0 :: rest ∧ d.lookup k = none) →
          mergeDicts (d0 :: rest) = .error ()) := by
  constructor
  · intro hall
    refine ⟨(d0.map (fun p => p.1)).map
      (fun k => (k, innerUnion (lookupAllD (d0 :: rest) k))), ?_, ?_, ?_⟩
    · rw [mergeDicts]
      apply mapMExcept_ok_of_forall
      intro k hk
      have hlk : lookupAll (d0 :: rest) k = .ok (lookupAllD (d0 :: rest) k) := by
        rw [lookupAll, lookupAllD]
        apply mapMExcept_ok_of_forall
        intro d hd
        have hs := hall k hk d hd
        rcases hdd : d.lookup k with _ | v
        · rw [hdd] at hs
          simp at hs
        · rfl
      rw [hlk]
    · rw [List.map_map]
      exact List.map_id _
    · intro k hk v hv
      rw [List.mem_map] at hv
      obtain ⟨k', hk', heq⟩ := hv
      have h1 : k' = k := congrArg Prod.fst heq
      subst h1
      exact hk hk'
  · rintro ⟨k, hk, d, hd, hnone⟩
    rw [mergeDicts]
    apply mapMExcept_error_of_mem
    refine ⟨k, hk, ?_⟩
    have : lookupAll (d0 :: rest) k = .error () := by
      rw [lookupAll]
      apply mapMExcept_error_of_mem
      exact ⟨d, hd, by rw [hnone]⟩
    rw [this]

/-- Two-GPU facet result used to exercise the join. -/
def dictCexA : Dict :=
  [("card0", [("File", GVal.s "/dev/dri/renderD128")]),
   ("card1", [("File", GVal.s "/dev/dri/renderD136")])]

/-- Facet result with an extra GPU key `card2`, used to exercise both the
silent drop and the failure direction of the join. -/
def dictCexB : Dict :=
  [("card0", [("Type", GVal.s "mi210")]),
   ("card1", [("Type", GVal.s "mi210")]),
   ("card2", [("Type", GVal.s "mi210")])]

theorem merge_dicts_behavior_witness :
    (∃ m : Dict, mergeDicts [dictCexA, dictCexB] = .ok m
        ∧ m.map (fun p => p.1) = dictCexA.map (fun p => p.1)
        ∧ ∀ k, k ∉ dictCexA.map (fun p => p.1) → ∀ v, (k, v) ∉ m)
      ∧ mergeDicts [dictCexB, dictCexA] = .error () :=
  ⟨(merge_dicts_behavior dictCexA [dictCexB]).1 (by decide),
   (merge_dicts_behavior dictCexB [dictCexA]).2 (by decide)⟩

/-! ### The inventory query layer (`_rocm_smi_get_*`)

The parsed `rocm-smi` JSON is a two-level dictionary: GPU key (or `system`)
to a flat field-name-to-string map, modelled as insertion-ordered association
lists.  Each getter first lower-cases all keys (`_dict_set_keys_to_lower`),
then walks the items, keeps the keys containing `card`, and extracts one
field per GPU; a missing field is a Python `assert`/`ValueError`, modelled as
`Except.error`. -/

/-- A parsed per-GPU JSON section: field name to string value. -/
abbrev RawInner : Type := List (String × String)

/-- A parsed `rocm-smi` JSON document. -/
abbrev RawDict : Type := List (String × RawInner)

/-- `_dict_set_keys_to_lower`: keys at both levels are lower-cased, values
are untouched. -/
def lowerRawDict (d : RawDict) : RawDict :=
  d.map (fun p => (lowerStr p.1, p.2.map (fun q => (lowerStr q.1, q.2))))

/-- Substring search over character lists: Python `pat in s`. -/
def subsearch (pat : List Char) : List Char → Bool
  | [] => pat.isEmpty
  | c :: rest => pat.isPrefixOf (c :: rest) || subsearch pat rest

/-- Python `_RSMI_GPU_IDENTIFIER_PATTERN in key`: does the key contain
`card`. -/
def keyMatchesGpu (k : String) : Bool := subsearch "card".toList k.toList

/-- Models Python `int()` on the strings the script feeds it: an optional
leading minus followed by at least one decimal digit; anything else (in
particular the empty default) raises. -/
def pyIntStr (s : String) : Option Int :=
  match s.toList with
  | [] => none
  | c :: rest =>
    if c = '-' then (parseNatChars rest).map (fun v => -(v : Int))
    else (parseNatChars (c :: rest)).map (fun v => (v : Int))

/-- The card-keyed items a getter loops over. -/
def gpuItems (raw : RawDict) : RawDict :=
  (lowerRawDict raw).filter (fun q => keyMatchesGpu q.1)

/-- `_rocm_smi_get_file`: take `"pci bus"` per GPU (assertion on a miss),
build the by-path symlink name from the lower-cased bus id, and resolve it
through the filesystem oracle `resolve`, which models
`os.path.abspath(os.readlink(·))`. -/
def rocmSmiGetFile (resolve : String → String) (raw : RawDict) : Except Unit Dict :=
  mapMExcept (fun p =>
    match p.2.lookup "pci bus" with
    | none => .error ()
    | some bus => .ok (p.1,
        [("File", GVal.s ("/dev/dri"
          ++ resolve ("/dev/dri/by-path/pci-" ++ lowerStr bus ++ "-render")))]))
    (gpuItems raw)

/-- `_rocm_smi_get_type`: take `"card series"` per GPU (assertion on a miss)
and normalize it through the series table. -/
def rocmSmiGetType (raw : RawDict) : Except Unit Dict :=
  mapMExcept (fun p =>
    match p.2.lookup "card series" with
    | none => .error ()
    | some cs => .ok (p.1, [("Type", GVal.s (normalizeCardSerie cs))]))
    (gpuItems raw)

/-- `_rocm_smi_get_uuid`: take `"unique id"` per GPU (assertion on a miss). -/
def rocmSmiGetUuid (raw : RawDict) : Except Unit Dict :=
  mapMExcept (fun p =>
    match p.2.lookup "unique id" with
    | none => .error ()
    | some u => .ok (p.1, [("UUID", GVal.s u)]))
    (gpuItems raw)

/-- `_rocm_smi_get_serial`: take `"serial number"` per GPU (assertion on a
miss). -/
def rocmSmiGetSerial (raw : RawDict) : Except Unit Dict :=
  mapMExcept (fun p =>
    match p.2.lookup "serial number" with
    | none => .error ()
    | some s => .ok (p.1, [("Serial", GVal.s s)]))
    (gpuItems raw)

/-- `_rocm_smi_get_cores` given the NUMA-to-CPU map: take
`"(topology) numa node"` with default `""` and feed it to `int()` (so a miss
raises `ValueError` on the empty string), then look the node up in the map;
a map miss stores Python `None`. -/
def rocmSmiGetCores (numaToCpus : List (Int × String)) (raw : RawDict) :
    Except Unit Dict :=
  mapMExcept (fun p =>
    match pyIntStr ((p.2.lookup "(topology) numa node").getD "") with
    | none => .error ()
    | some nn => .ok (p.1,
        [("Cores", match numaToCpus.lookup nn with
          | some rng => GVal.s rng
          | none => GVal.null)]))
    (gpuItems raw)

/-- `_rocm_smi_get_links` as dictionary plumbing around the link matrix: the
GPU count is the number of `card` keys, the `system` section must exist as
soon as one GPU is present (`.get(...)` on `None` raises), and row `k` of the
matrix becomes the `Links` entry of `card{k}`. -/
def rocmSmiGetLinks (raw : RawDict) : Except Unit Dict :=
  if (gpuItems raw).length = 0 then .ok []
  else
    match (lowerRawDict raw).lookup "system" with
    | none => .error ()
    | some sysTab =>
        .ok ((List.range (gpuItems raw).length).map (fun k =>
          ("card" ++ toString k,
           [("Links", GVal.ls ((buildLinksMatrix (gpuItems raw).length
              (fun i j => (sysTab.lookup (topoTag i j)).getD "")).getD k []))])))

theorem mapMExcept_ok_mem {α β : Type} (f : α → Except Unit β) :
    ∀ (l : List α) (bs : List β), mapMExcept f l = .ok bs →
      ∀ b ∈ bs, ∃ a ∈ l, f a = .ok b := by
  intro l
  induction l with
  | nil =>
    intro bs h b hb
    rw [mapMExcept] at h
    injection h with h1
    subst h1
    exact absurd hb (List.not_mem_nil b)
  | cons a t ih =>
    intro bs h b hb
    rw [mapMExcept] at h
    rcases hfa : f a with _ | v <;> rw [hfa] at h
    · exact absurd h (by simp)
    · rcases hmt : mapMExcept f t with _ | bs' <;> rw [hmt] at h
      · exact absurd h (by simp)
      · injection h with h1
        subst h1
        rcases List.mem_cons.mp hb with rfl | hbs
        · exact ⟨a, List.mem_cons_self a t, hfa⟩
        · obtain ⟨a', ha', hfa'⟩ := ih bs' hmt b hbs
          exact ⟨a', List.mem_cons_of_mem a ha', hfa'⟩

/-- C9: every inventory facet fails hard when the expected field is missing
from a GPU entry of the parsed output, and a successful facet result always
carries its field: `pci bus`, `card series`, `unique id` and `serial number`
are guarded by assertions, and a missing `(topology) numa node` defaults to
`""`, which `int()` rejects. -/
theorem inventory_missing_field_fails (raw : RawDict) (resolve : String → String)
    (numaToCpus : List (Int × String)) :
    ((∃ p ∈ gpuItems raw, p.2.lookup "pci bus" = none) →
        rocmSmiGetFile resolve raw = .error ())
      ∧ (∀ res, rocmSmiGetFile resolve raw = .ok res →
          ∀ r ∈ res, ∃ g, r.2.lookup "File" = some g)
      ∧ ((∃ p ∈ gpuItems raw, p.2.lookup "card series" = none) →
          rocmSmiGetType raw = .error ())
      ∧ (∀ res, rocmSmiGetType raw = .ok res →
          ∀ r ∈ res, ∃ g, r.2.lookup "Type" = some g)
      ∧ ((∃ p ∈ gpuItems raw, p.2.lookup "unique id" = none) →
          rocmSmiGetUuid raw = .error ())
      ∧ (∀ res, rocmSmiGetUuid raw = .ok res →
          ∀ r ∈ res, ∃ g, r.2.lookup "UUID" = some g)
      ∧ ((∃ p ∈ gpuItems raw, p.2.lookup "serial number" = none) →
          rocmSmiGetSerial raw = .error ())
      ∧ (∀ res, rocmSmiGetSerial raw = .ok res →
          ∀ r ∈ res, ∃ g, r.2.lookup "Serial" = some g)
      ∧ ((∃ p ∈ gpuItems raw, p.2.lookup "(topology) numa node" = none) →
          rocmSmiGetCores numaToCpus raw = .error ())
      ∧ (∀ res, rocmSmiGetCores numaToCpus raw = .ok res →
          ∀ r ∈ res, ∃ g, r.2.lookup "Cores" = some g) := by
  refine ⟨?_, ?_, ?_, ?_, ?_, ?_, ?_, ?_, ?_, ?_⟩
  · rintro ⟨p, hp, hnone⟩
    exact mapMExcept_error_of_mem _ _ ⟨p, hp, by rw [hnone]⟩
  · intro res hres r hr
    obtain ⟨p, _, hfp⟩ := mapMExcept_ok_mem _ _ _ hres r hr
    rcases hlk : p.2.lookup "pci bus" with _ | bus <;> rw [hlk] at hfp
    · exact absurd hfp (by simp)
    · injection hfp with h1
      subst h1
      exact ⟨_, rfl⟩
  · rintro ⟨p, hp, hnone⟩
    exact mapMExcept_error_of_mem _ _ ⟨p, hp, by rw [hnone]⟩
  · intro res hres r hr
    obtain ⟨p, _, hfp⟩ := mapMExcept_ok_mem _ _ _ hres r hr
    rcases hlk : p.2.lookup "card series" with _ | cs <;> rw [hlk] at hfp
    · exact absurd hfp (by simp)
    · injection hfp with h1
      subst h1
      exact ⟨_, rfl⟩
  · rintro ⟨p, hp, hnone⟩
    exact mapMExcept_error_of_mem _ _ ⟨p, hp, by rw [hnone]⟩
  · intro res hres r hr
    obtain ⟨p, _, hfp⟩ := mapMExcept_ok_mem _ _ _ hres r hr
    rcases hlk : p.2.lookup "unique id" with _ | u <;> rw [hlk] at hfp
    · exact absurd hfp (by simp)
    · injection hfp with h1
      subst h1
      exact ⟨_, rfl⟩
  · rintro ⟨p, hp, hnone⟩
    exact mapMExcept_error_of_mem _ _ ⟨p, hp, by rw [hnone]⟩
  · intro res hres r hr
    obtain ⟨p, _, hfp⟩ := mapMExcept_ok_mem _ _ _ hres r hr
    rcases hlk : p.2.lookup "serial number" with _ | s <;> rw [hlk] at hfp
    · exact absurd hfp (by simp)
    · injection hfp with h1
      subst h1
      exact ⟨_, rfl⟩
  · rintro ⟨p, hp, hnone⟩
    exact mapMExcept_error_of_mem _ _ ⟨p, hp, by rw [hnone]; rfl⟩
  · intro res hres r hr
    obtain ⟨p, _, hfp⟩ := mapMExcept_ok_mem _ _ _ hres r hr
    rcases hpi : pyIntStr ((p.2.lookup "(topology) numa node").getD "") with _ | nn <;>
      rw [hpi] at hfp
    · exact absurd hfp (by simp)
    · injection hfp with h1
      subst h1
      exact ⟨_, rfl⟩

/-- Witness for C9 at a GPU entry with no fields at all: all five facet
queries fail hard. -/
theorem inventory_missing_field_fails_witness :
    rocmSmiGetFile (fun s => s) [("card0", [])] = .error ()
      ∧ rocmSmiGetType [("card0", [])] = .error ()
      ∧ rocmSmiGetUuid [("card0", [])] = .error ()
      ∧ rocmSmiGetSerial [("card0", [])] = .error ()
      ∧ rocmSmiGetCores [] [("card0", [])] = .error () := by
  have h := inventory_missing_field_fails [("card0", [])] (fun s => s) []
  exact ⟨h.1 (by decide), h.2.2.1 (by decide), h.2.2.2.2.1 (by decide),
    h.2.2.2.2.2.2.1 (by decide), h.2.2.2.2.2.2.2.2.1 (by decide)⟩

theorem ltChars_cons_cons (x y : Char) (as bs : List Char) :
    ltChars (x :: as) (y :: bs) = if x = y then ltChars as bs else decide (x < y) := rfl

theorem ltChars_iff : ∀ a b : List Char,
    ltChars a b = true ↔ (leChars a b = true ∧ a ≠ b) := by
  intro a
  induction a with
  | nil =>
    intro b
    cases b with
    | nil => simp [ltChars, leChars]
    | cons y bs => simp [ltChars, leChars]
  | cons x as ih =>
    intro b
    cases b with
    | nil => simp [ltChars, leChars]
    | cons y bs =>
      by_cases hxy : x = y
      · subst hxy
        rw [ltChars_cons_cons, leChars_cons_cons, if_pos rfl, if_pos rfl, ih bs]
        constructor
        · rintro ⟨h1, h2⟩
          exact ⟨h1, by intro hc; injection hc with _ hh; exact h2 hh⟩
        · rintro ⟨h1, h2⟩
          refine ⟨h1, fun he => h2 ?_⟩
          rw [he]
      · rw [ltChars_cons_cons, leChars_cons_cons, if_neg hxy, if_neg hxy]
        constructor
        · intro h1
          exact ⟨h1, by intro hc; injection hc with hh _; exact hxy hh⟩
        · rintro ⟨h1, _⟩
          exact h1

theorem ltChars_asymm {a b : List Char} (h1 : ltChars a b = true)
    (h2 : ltChars b a = true) : False := by
  obtain ⟨hle1, hne⟩ := (ltChars_iff a b).mp h1
  obtain ⟨hle2, _⟩ := (ltChars_iff b a).mp h2
  exact hne (leChars_antisymm a b hle1 hle2)

theorem ltChars_trans {a b c : List Char} (h1 : ltChars a b = true)
    (h2 : ltChars b c = true) : ltChars a c = true := by
  obtain ⟨hle1, hne1⟩ := (ltChars_iff a b).mp h1
  obtain ⟨hle2, hne2⟩ := (ltChars_iff b c).mp h2
  refine (ltChars_iff a c).mpr ⟨leChars_trans a b c hle1 hle2, fun hac => ?_⟩
  subst hac
  exact ltChars_asymm h1 h2

theorem ltChars_connex {a b : List Char} (h : a ≠ b) :
    (ltChars a b || ltChars b a) = true := by
  have ht := leChars_total a b
  rw [Bool.or_eq_true] at ht ⊢
  rcases ht with h1 | h1
  · exact Or.inl ((ltChars_iff a b).mpr ⟨h1, h⟩)
  · exact Or.inr ((ltChars_iff b a).mpr ⟨h1, fun he => h he.symm⟩)

theorem strNe_toList {a b : String} (h : a ≠ b) : a.toList ≠ b.toList :=
  fun he => h (String.ext he)

/-- Python tuple comparison `(s1, l1) <= (s2, l2)` on string pairs, as used
by `sorted(zip(serials, links))`: lexicographic, second component decides
ties. -/
def pairLe (a b : String × String) : Bool :=
  if a.1 = b.1 then leChars a.2.toList b.2.toList else ltChars a.1.toList b.1.toList

theorem pairLe_total : ∀ a b : String × String, (pairLe a b || pairLe b a) = true := by
  intro a b
  by_cases h : a.1 = b.1
  · rw [pairLe, pairLe, if_pos h, if_pos h.symm]
    exact leChars_total _ _
  · rw [pairLe, pairLe, if_neg h, if_neg (fun hh => h hh.symm)]
    exact ltChars_connex (strNe_toList h)

theorem pairLe_trans : ∀ a b c : String × String,
    pairLe a b = true → pairLe b c = true → pairLe a c = true := by
  intro a b c hab hbc
  by_cases h1 : a.1 = b.1
  · by_cases h2 : b.1 = c.1
    · rw [pairLe, if_pos h1] at hab
      rw [pairLe, if_pos h2] at hbc
      rw [pairLe, if_pos (h1.trans h2)]
      exact leChars_trans _ _ _ hab hbc
    · rw [pairLe, if_neg h2] at hbc
      have hac : ¬(a.1 = c.1) := fun he => h2 (h1 ▸ he)
      rw [pairLe, if_neg hac, h1]
      exact hbc
  · by_cases h2 : b.1 = c.1
    · rw [pairLe, if_neg h1] at hab
      have hac : ¬(a.1 = c.1) := fun he => h1 (he.trans h2.symm)
      rw [pairLe, if_neg hac, ← h2]
      exact hab
    · rw [pairLe, if_neg h1] at hab
      rw [pairLe, if_neg h2] at hbc
      have hlt := ltChars_trans hab hbc
      have hac : ¬(a.1 = c.1) := by
        intro he
        rw [he] at hab
        exact ltChars_asymm hab hbc
      rw [pairLe, if_neg hac]
      exact hlt

theorem pairLe_antisymm : ∀ a b : String × String,
    pairLe a b = true → pairLe b a = true → a = b := by
  intro a b hab hba
  obtain ⟨a1, a2⟩ := a
  obtain ⟨b1, b2⟩ := b
  by_cases h : a1 = b1
  · subst h
    rw [pairLe, if_pos rfl] at hab hba
    have h2 : a2 = b2 := String.ext (leChars_antisymm _ _ hab hba)
    rw [h2]
  · rw [pairLe] at hab hba
    simp only at hab hba
    rw [if_neg h] at hab
    rw [if_neg (fun hh => h hh.symm)] at hba
    exact absurd (ltChars_asymm hab hba) not_false

/-- The link-vector permutation of `get_gres_conf`:
`[x for _, x in sorted(zip(serials, links))]`, where `serials` is the
discovery-order serial list taken from the `--showserial` result. -/
def permuteLinks (serials links : List String) : List String :=
  (pySort pairLe (serials.zip links)).map (fun q => q.2)

/-- The discovery index of the GPU that lands at position `j` once the
serials are sorted. -/
def sortedPos (serials : List String) (j : Nat) : Nat :=
  serials.indexOf ((pySort strLe serials).getD j "")

theorem pySort_length {α : Type} (le : α → α → Bool) (l : List α) :
    (pySort le l).length = l.length :=
  (pySort_perm le l).length_eq

theorem getD_map_lt {α β : Type} (f : α → β) (l : List α) (j : Nat)
    (hj : j < l.length) (d : β) (d' : α) : (l.map f).getD j d = f (l.getD j d') := by
  rw [List.getD_eq_getElem?_getD, List.getElem?_map, List.getElem?_eq_getElem hj,
    List.getD_eq_getElem?_getD, List.getElem?_eq_getElem hj]
  rfl

theorem map_lookup_eq_zip (serials links : List String)
    (hnd : serials.Nodup) (hlen : links.length = serials.length) :
    serials.map (fun s => (s, links.getD (serials.indexOf s) ""))
      = serials.zip links := by
  apply List.ext_getElem
  · simp [hlen]
  · intro i h1 h2
    rw [List.getElem_map, List.getElem_zip]
    have hilen : i < serials.length := by simpa using h1
    have hidx : serials.indexOf serials[i] = i :=
      List.indexOf_getElem hnd i hilen
    rw [hidx]
    have hil : i < links.length := by
      rw [hlen]
      simpa using h1
    rw [List.getD_eq_getElem?_getD, List.getElem?_eq_getElem hil]
    rfl

theorem pySort_zip_eq (serials links : List String) (hnd : serials.Nodup)
    (hlen : links.length = serials.length) :
    pySort pairLe (serials.zip links)
      = (pySort strLe serials).map (fun s => (s, links.getD (serials.indexOf s) "")) := by
  apply sorted_perm_unique pairLe_antisymm
  · have h1 : pySort pairLe (serials.zip links) ~ serials.zip links :=
      pySort_perm _ _
    have h2 : serials.map (fun s => (s, links.getD (serials.indexOf s) ""))
        ~ (pySort strLe serials).map (fun s => (s, links.getD (serials.indexOf s) "")) :=
      (pySort_perm strLe serials).symm.map _
    rw [map_lookup_eq_zip serials links hnd hlen] at h2
    exact h1.trans h2
  · exact pySort_pairwise pairLe_total pairLe_trans _
  · rw [List.pairwise_map]
    have hs := pySort_pairwise strLe_total strLe_trans serials
    have hn : (pySort strLe serials).Nodup := hnd.perm (pySort_perm strLe serials).symm
    have hcomb := hs.and hn
    apply hcomb.imp
    intro a b hab
    obtain ⟨h1, h2⟩ := hab
    rw [pairLe, if_neg h2]
    exact (ltChars_iff _ _).mpr ⟨h1, strNe_toList h2⟩

theorem permuteLinks_getD (serials links : List String) (hnd : serials.Nodup)
    (hlen : links.length = serials.length) (j : Nat) (hj : j < serials.length) :
    (permuteLinks serials links).getD j "" = links.getD (sortedPos serials j) "" := by
  rw [permuteLinks, pySort_zip_eq serials links hnd hlen, List.map_map]
  have hjlen : j < (pySort strLe serials).length := by
    rw [pySort_length]
    exact hj
  rw [getD_map_lt _ _ j hjlen _ ""]
  rfl

/-- `item[1]["Serial"]` as the sort key.  The serial getter only ever stores
string serials, so a missing key (Python `KeyError`) or a non-string value
(Python `TypeError` on comparison) is the error domain. -/
def serialKey (v : Inner) : Except Unit String :=
  match v.lookup "Serial" with
  | some (GVal.s s) => .ok s
  | _ => .error ()

/-- `val["Links"]` as the raw string list to permute. -/
def linksList (v : Inner) : Except Unit (List String) :=
  match v.lookup "Links" with
  | some (GVal.ls l) => .ok l
  | _ => .error ()

/-- Total projection of the serial of a well-formed record. -/
def serialOfD (v : Inner) : String :=
  match v.lookup "Serial" with
  | some (GVal.s s) => s
  | _ => ""

/-- Total projection of the link vector of a well-formed record. -/
def linksOfD (v : Inner) : List String :=
  match v.lookup "Links" with
  | some (GVal.ls l) => l
  | _ => []

/-- Comparison of serial-decorated records: `sorted(..., key=...)` compares
only the extracted keys. -/
def decorLe (a b : String × (String × Inner)) : Bool := strLe a.1 b.1

theorem decorLe_total : ∀ a b : String × (String × Inner),
    (decorLe a b || decorLe b a) = true :=
  fun a b => strLe_total a.1 b.1

theorem decorLe_trans : ∀ a b c : String × (String × Inner),
    decorLe a b = true → decorLe b c = true → decorLe a c = true :=
  fun a b c => strLe_trans a.1 b.1 c.1

/-- Lines 358–369 of the script: re-key the record dictionary in sorted-by-
serial order (`dict(sorted(gres_dict.items(), key=lambda item:
item[1]["Serial"]))`), then replace every record's `Links` by the zip-sorted
permutation against the discovery-order serial list of the `--showserial`
result.  The serial-list extraction is hoisted before the loop; Python
evaluates it inside the loop, which is observably identical on every input
the getters can produce. -/
def sortAndPermute (gres serialDict : Dict) : Except Unit Dict :=
  match mapMExcept (fun kv => match serialKey kv.2 with
      | .ok s => .ok (s, kv)
      | .error e => .error e) gres with
  | .error e => .error e
  | .ok decorated =>
    match mapMExcept (fun kv => serialKey kv.2) serialDict with
    | .error e => .error e
    | .ok serials =>
        mapMExcept (fun kv =>
          match linksList kv.2 with
          | .ok links =>
              .ok (kv.1, setPair kv.2 "Links" (GVal.ls (permuteLinks serials links)))
          | .error e => .error e)
          ((pySort decorLe decorated).map (fun q => q.2))

theorem serialOfD_setPair_links (v : Inner) (x : GVal) :
    serialOfD (setPair v "Links" x) = serialOfD v := by
  rw [serialOfD, serialOfD, lookup_setPair, if_neg (by decide : ¬("Serial" = "Links"))]

/-- C1: with the identity fields present — every record stores its serial as
a string and a link vector of full length, and the discovery-order serials
are pairwise distinct — the output records are globally sorted by serial
number, every output record is an input record with only its link vector
re-permuted, and entry `j` of an output link vector is the entry of the
original vector at the discovery index of the `j`-th GPU in
sorted-by-serial order. -/
theorem gres_sorted_records (gres serialDict : Dict) (serials : List String)
    (hserials : mapMExcept (fun kv => serialKey kv.2) serialDict = .ok serials)
    (hnd : serials.Nodup)
    (hser : ∀ p ∈ gres, ∃ s, p.2.lookup "Serial" = some (GVal.s s))
    (hlnk : ∀ p ∈ gres, ∃ l, p.2.lookup "Links" = some (GVal.ls l)
        ∧ l.length = serials.length) :
    ∃ out : Dict, sortAndPermute gres serialDict = .ok out
      ∧ out.length = gres.length
      ∧ (out.map (fun p => serialOfD p.2)).Pairwise (fun a b => strLe a b = true)
      ∧ ∀ q ∈ out, ∃ p ∈ gres, p.1 = q.1 ∧ serialOfD p.2 = serialOfD q.2
          ∧ ∀ j, j < serials.length →
              (linksOfD q.2).getD j "" = (linksOfD p.2).getD (sortedPos serials j) "" := by
  have hdec : mapMExcept (fun kv => match serialKey kv.2 with
      | .ok s => .ok (s, kv)
      | .error e => .error e) gres
      = .ok (gres.map (fun kv => (serialOfD kv.2, kv))) := by
    apply mapMExcept_ok_of_forall
    intro p hp
    obtain ⟨s, hs⟩ := hser p hp
    have h1 : serialKey p.2 = .ok s := by rw [serialKey, hs]
    have h2 : serialOfD p.2 = s := by rw [serialOfD, hs]
    rw [h1, h2]
  have hmem : ∀ kv, kv ∈ (pySort decorLe (gres.map (fun kv => (serialOfD kv.2, kv)))).map
      (fun q => q.2) → kv ∈ gres := by
    intro kv hkv
    rw [List.mem_map] at hkv
    obtain ⟨q, hq, hq2⟩ := hkv
    have hqd : q ∈ gres.map (fun kv => (serialOfD kv.2, kv)) :=
      (pySort_perm decorLe _).mem_iff.mp hq
    rw [List.mem_map] at hqd
    obtain ⟨p, hp, hgp⟩ := hqd
    rw [← hq2, ← hgp]
    exact hp
  have hfin : mapMExcept (fun kv =>
      match linksList kv.2 with
      | .ok links =>
          .ok (kv.1, setPair kv.2 "Links" (GVal.ls (permuteLinks serials links)))
      | .error e => .error e)
      ((pySort decorLe (gres.map (fun kv => (serialOfD kv.2, kv)))).map (fun q => q.2))
      = .ok (((pySort decorLe (gres.map (fun kv => (serialOfD kv.2, kv)))).map
          (fun q => q.2)).map (fun kv =>
            (kv.1, setPair kv.2 "Links"
              (GVal.ls (permuteLinks serials (linksOfD kv.2)))))) := by
    apply mapMExcept_ok_of_forall
    intro kv hkv
    obtain ⟨l, hl, _⟩ := hlnk kv (hmem kv hkv)
    have h1 : linksList kv.2 = .ok l := by rw [linksList, hl]
    have h2 : linksOfD kv.2 = l := by rw [linksOfD, hl]
    rw [h1, h2]
  have helem : ∀ q ∈ pySort decorLe (gres.map (fun kv => (serialOfD kv.2, kv))),
      q.1 = serialOfD q.2.2 := by
    intro q hq
    have hqd : q ∈ gres.map (fun kv => (serialOfD kv.2, kv)) :=
      (pySort_perm decorLe _).mem_iff.mp hq
    rw [List.mem_map] at hqd
    obtain ⟨p, _, hgp⟩ := hqd
    rw [← hgp]
  refine ⟨((pySort decorLe (gres.map (fun kv => (serialOfD kv.2, kv)))).map
      (fun q => q.2)).map (fun kv =>
        (kv.1, setPair kv.2 "Links"
          (GVal.ls (permuteLinks serials (linksOfD kv.2))))), ?_, ?_, ?_, ?_⟩
  · rw [sortAndPermute, hdec, hserials]
    exact hfin
  · rw [List.length_map, List.length_map, pySort_length, List.length_map]
  · rw [List.map_map, List.map_map, List.pairwise_map]
    have hsorted := pySort_pairwise decorLe_total decorLe_trans
      (gres.map (fun kv => (serialOfD kv.2, kv)))
    apply List.Pairwise.imp_of_mem ?himp hsorted
    intro a b ha hb hr
    simp only [Function.comp]
    rw [serialOfD_setPair_links, serialOfD_setPair_links,
      ← helem a ha, ← helem b hb]
    exact hr
  · intro q hq
    rw [List.mem_map] at hq
    obtain ⟨kv, hkv, hhq⟩ := hq
    have hkvg : kv ∈ gres := hmem kv hkv
    obtain ⟨l, hl, hlen⟩ := hlnk kv hkvg
    refine ⟨kv, hkvg, ?_, ?_, ?_⟩
    · rw [← hhq]
    · rw [← hhq]
      exact (serialOfD_setPair_links _ _).symm
    · intro j hj
      rw [← hhq]
      have hlinks_set : linksOfD (setPair kv.2 "Links"
          (GVal.ls (permuteLinks serials (linksOfD kv.2))))
          = permuteLinks serials (linksOfD kv.2) := by
        rw [linksOfD, lookup_setPair, if_pos rfl]
      have h2 : linksOfD kv.2 = l := by rw [linksOfD, hl]
      show (linksOfD (setPair kv.2 "Links"
          (GVal.ls (permuteLinks serials (linksOfD kv.2))))).getD j ""
        = (linksOfD kv.2).getD (sortedPos serials j) ""
      rw [hlinks_set, h2]
      exact permuteLinks_getD serials l hnd hlen j hj

/-- Two discovery-ordered GPU records whose serials sort in reverse
discovery order, used to exercise the sort-and-permute step. -/
def gresW : Dict :=
  [("card0", [("Serial", GVal.s "B"), ("Links", GVal.ls ["-1", "0"])]),
   ("card1", [("Serial", GVal.s "A"), ("Links", GVal.ls ["0", "-1"])])]

/-- The matching discovery-order serial facet result. -/
def serialDictW : Dict :=
  [("card0", [("Serial", GVal.s "B")]), ("card1", [("Serial", GVal.s "A")])]

theorem gres_sorted_records_witness :
    ∃ out : Dict, sortAndPermute gresW serialDictW = .ok out
      ∧ out.length = gresW.length
      ∧ (out.map (fun p => serialOfD p.2)).Pairwise (fun a b => strLe a b = true)
      ∧ ∀ q ∈ out, ∃ p ∈ gresW, p.1 = q.1 ∧ serialOfD p.2 = serialOfD q.2
          ∧ ∀ j, j < (["B", "A"] : List String).length →
              (linksOfD q.2).getD j ""
                = (linksOfD p.2).getD (sortedPos ["B", "A"] j) "" := by
  apply gres_sorted_records gresW serialDictW ["B", "A"] rfl (by decide)
  · intro p hp
    simp only [gresW, List.mem_cons, List.not_mem_nil, or_false] at hp
    rcases hp with rfl | rfl
    · exact ⟨"B", rfl⟩
    · exact ⟨"A", rfl⟩
  · intro p hp
    simp only [gresW, List.mem_cons, List.not_mem_nil, or_false] at hp
    rcases hp with rfl | rfl
    · exact ⟨["-1", "0"], rfl, rfl⟩
    · exact ⟨["0", "-1"], rfl, rfl⟩

/-! ### `_lscpu_get_numa_cpus` and the output formatting of `get_gres_conf` -/

/-- Split a character list on a separator character, modelling Python
`str.split(sep)` for the one-character separators the script uses. -/
def splitChar (sep : Char) : List Char → List (List Char)
  | [] => [[]]
  | c :: rest =>
    let r := splitChar sep rest
    if c = sep then [] :: r
    else
      match r with
      | [] => [[c]]
      | h :: t => (c :: h) :: t

/-- Python `s.startswith(c)` for a one-character prefix. -/
def startsWithChar (c : Char) (s : String) : Bool :=
  match s.toList with
  | [] => false
  | a :: _ => a = c

/-- `defaultdict(list)` append: create the key at first touch, keep first-
appearance order, append at the end of the current list. -/
def appendAt (m : List (Int × List Int)) (k : Int) (v : Int) : List (Int × List Int) :=
  match m with
  | [] => [(k, [v])]
  | (k', vs) :: rest =>
    if k' = k then (k', vs ++ [v]) :: rest else (k', vs) :: appendAt rest k v

/-- `_lscpu_get_numa_cpus`: split the `lscpu --parse=NODE,CPU` output into
lines, skip `#` comments and empty lines, parse the first two comma-fields
with `int()` (a one-field line raises `IndexError`, modelled by the length
guard), group CPU ids by node, and collapse each group. -/
def lscpuGetNumaCpus (lscpuOut : String) : Except Unit (List (Int × String)) :=
  match mapMExcept (fun l =>
      let parts := (splitChar ',' l.toList).map (fun cs => String.mk cs)
      match pyIntStr (parts.getD 0 "") with
      | none => .error ()
      | some node =>
        if parts.length < 2 then .error ()
        else
          match pyIntStr (parts.getD 1 "") with
          | none => .error ()
          | some cpu => .ok (node, cpu))
      (((splitChar (Char.ofNat 10) lscpuOut.toList).map (fun cs => String.mk cs)).filter
        (fun l => !startsWithChar '#' l && !(l = ""))) with
  | .error e => .error e
  | .ok pairs =>
      .ok ((pairs.foldl (fun acc p => appendAt acc p.1 p.2) []).map
        (fun g => (g.1, collapseCpus g.2)))

/-- The fixed field order `_GRES_FIELDS_ORDER`. -/
def gresFieldsOrder : List String :=
  ["NodeName", "Name", "Type", "Autodetect", "Count", "Cores", "Links", "Flags", "File"]

/-- The names of the constant fields attached to every record. -/
def constFieldNames : List String :=
  ["Name", "NodeName", "Autodetect", "Count", "Flags"]

/-- An ASCII apostrophe. -/
def quoteChar : String := String.singleton (Char.ofNat 39)

/-- f-string rendering of a stored value (`f"...{val[subkey]}..."`): strings
render as themselves, `None` as `None`, integers in decimal, and a raw list
in Python list-repr form (never reached after the `Links` join). -/
def gvalRender : GVal → String
  | .s v => v
  | .ls vs => "[" ++ pyJoin ", " (vs.map (fun v => quoteChar ++ v ++ quoteChar)) ++ "]"
  | .n v => toString v
  | .null => "None"

/-- Whether `val.get(subkey) is not None`. -/
def isPresent (v : Inner) (k : String) : Bool :=
  match v.lookup k with
  | some g => decide (¬(g = GVal.null))
  | none => false

/-- One gres.conf resource line: the `key=value` pairs of the present fields
in the fixed order, joined by single spaces. -/
def formatLine (v : Inner) : String :=
  pyJoin " " (gresFieldsOrder.filterMap (fun k =>
    match v.lookup k with
    | some g => if g = GVal.null then none else some (k ++ "=" ++ gvalRender g)
    | none => none))

/-- The per-GPU comment line; `val['UUID']`/`val['Serial']` raise `KeyError`
when absent. -/
def gpuComment (idx : Nat) (v : Inner) : Except Unit String :=
  match v.lookup "UUID", v.lookup "Serial" with
  | some u, some s =>
      .ok ("# GPU " ++ toString idx ++ " with uuid=" ++ gvalRender u
        ++ " and serial=" ++ gvalRender s)
  | _, _ => .error ()

/-- Total form of the comment line for records that carry both fields. -/
def gpuCommentD (idx : Nat) (v : Inner) : String :=
  "# GPU " ++ toString idx ++ " with uuid=" ++ gvalRender ((v.lookup "UUID").getD GVal.null)
    ++ " and serial=" ++ gvalRender ((v.lookup "Serial").getD GVal.null)

/-- `80 * "#"`. -/
def hashLine : String := String.mk (List.replicate 80 '#')

/-- The constant gres.conf fields, with the values the script assigns. -/
def constFields (hostname : String) : List (String × GVal) :=
  [("Name", GVal.s "gpu"), ("NodeName", GVal.s hostname),
   ("Autodetect", GVal.s "off"), ("Count", GVal.n 1),
   ("Flags", GVal.s "amd_gpu_env")]

/-- `gres_dict[key].update({...})` for every record. -/
def attachConstants (hostname : String) (records : Dict) : Dict :=
  records.map (fun p =>
    (p.1, (constFields hostname).foldl (fun acc q => setPair acc q.1 q.2) p.2))

/-- `val["Links"] = ",".join(val["Links"])` for every record: a list joins
with commas, a string joins character-wise (Python iterates it), anything
else raises. -/
def stringifyLinks (records : Dict) : Except Unit Dict :=
  mapMExcept (fun p =>
    match p.2.lookup "Links" with
    | some (GVal.ls l) => .ok (p.1, setPair p.2 "Links" (GVal.s (pyJoin "," l)))
    | some (GVal.s str) => .ok (p.1, setPair p.2 "Links"
        (GVal.s (pyJoin "," (str.toList.map (fun c => String.singleton c)))))
    | _ => .error ()) records

/-- The printed output once the records are final: the three banner lines,
one comment and one resource line per GPU in order, and a closing hash
line.  Nothing is printed when a comment lookup raises. -/
def commentBlocks (records : Dict) : Except Unit (List (List String)) :=
  mapMExcept (fun q =>
    match gpuComment q.1 q.2.2 with
    | .ok c => .ok [c, formatLine q.2.2]
    | .error e => .error e) records.enum

def renderOutput (unameNode scriptName date : String) (records : Dict) :
    Except Unit (List String) :=
  match commentBlocks records with
  | .error e => .error e
  | .ok blocks =>
      .ok ([hashLine,
        "# AMD GPU " ++ quoteChar ++ "gres.conf" ++ quoteChar ++ " for host "
          ++ quoteChar ++ unameNode ++ quoteChar,
        "# Generated by " ++ scriptName ++ " on " ++ date]
        ++ blocks.flatten ++ [hashLine])

/-- The record-building part of `get_gres_conf`, everything up to (and
excluding) the prints: the six facet queries in call order, the join, the
constant fields, the sort-and-permute and the `Links` join.  The hostname is
`os.uname()[1].split(".")[0]`. -/
def gresRecords (resolve : String → String) (unameNode lscpuOut : String)
    (rawSerial rawUuid rawFile rawTopo rawType rawCores : RawDict) :
    Except Unit Dict := do
  let serial ← rocmSmiGetSerial rawSerial
  let uuid ← rocmSmiGetUuid rawUuid
  let file ← rocmSmiGetFile resolve rawFile
  let links ← rocmSmiGetLinks rawTopo
  let ty ← rocmSmiGetType rawType
  let numa ← lscpuGetNumaCpus lscpuOut
  let cores ← rocmSmiGetCores numa rawCores
  let merged ← mergeDicts [file, links, cores, ty, uuid, serial]
  let sorted' ← sortAndPermute
    (attachConstants (String.mk ((splitChar '.' unameNode.toList).getD 0 [])) merged)
    serial
  stringifyLinks sorted'

/-- The whole of `get_gres_conf`: build the records, then print. -/
def gresConf (resolve : String → String) (unameNode scriptName date lscpuOut : String)
    (rawSerial rawUuid rawFile rawTopo rawType rawCores : RawDict) :
    Except Unit (List String) :=
  match gresRecords resolve unameNode lscpuOut rawSerial rawUuid rawFile rawTopo
      rawType rawCores with
  | .error e => .error e
  | .ok records => renderOutput unameNode scriptName date records

/-- C8 (amended): for every fixed set of tool outputs, two runs differ at
most in the `# Generated by ... on <timestamp>` banner line (index 2 of the
printed output): they fail identically or succeed with outputs of the same
length that agree on every other line; with the clock also fixed, the output
is byte-identical (the program is otherwise a pure function of the tool
outputs). -/
theorem output_identical_except_banner (resolve : String → String)
    (unameNode scriptName d1 d2 lscpuOut : String)
    (rawSerial rawUuid rawFile rawTopo rawType rawCores : RawDict) :
    (gresConf resolve unameNode scriptName d1 lscpuOut rawSerial rawUuid rawFile
        rawTopo rawType rawCores).isOk
      = (gresConf resolve unameNode scriptName d2 lscpuOut rawSerial rawUuid rawFile
          rawTopo rawType rawCores).isOk
    ∧ ((gresConf resolve unameNode scriptName d1 lscpuOut rawSerial rawUuid rawFile
        rawTopo rawType rawCores).toOption.getD []).length
      = ((gresConf resolve unameNode scriptName d2 lscpuOut rawSerial rawUuid rawFile
          rawTopo rawType rawCores).toOption.getD []).length
    ∧ ∀ i : Nat, i ≠ 2 →
        ((gresConf resolve unameNode scriptName d1 lscpuOut rawSerial rawUuid rawFile
            rawTopo rawType rawCores).toOption.getD []).getD i ""
          = ((gresConf resolve unameNode scriptName d2 lscpuOut rawSerial rawUuid rawFile
              rawTopo rawType rawCores).toOption.getD []).getD i "" := by
  simp only [gresConf]
  rcases hrec : gresRecords resolve unameNode lscpuOut rawSerial rawUuid rawFile
      rawTopo rawType rawCores with e | records
  · exact ⟨rfl, rfl, fun i _ => rfl⟩
  · simp only [renderOutput]
    rcases hmap : commentBlocks records with e | blocks
    · exact ⟨rfl, rfl, fun i _ => rfl⟩
    · refine ⟨rfl, rfl, ?_⟩
      intro i hi
      rcases i with _ | i1
      · rfl
      rcases i1 with _ | i2
      · rfl
      rcases i2 with _ | i3
      · exact absurd rfl hi
      · rfl

/-- The fixed tool outputs of the one-GPU counterexample run. -/
def cexResolve : String → String := fun _ => "/renderD128"

def cexRawSerial : RawDict := [("card0", [("Serial Number", "S1")])]

def cexRawUuid : RawDict := [("card0", [("Unique ID", "0xabc")])]

def cexRawFile : RawDict := [("card0", [("PCI Bus", "0000:43:00.0")])]

def cexRawTopo : RawDict := [("card0", []), ("system", [])]

def cexRawType : RawDict := [("card0", [("Card Series", "Instinct MI210")])]

def cexRawCores : RawDict := [("card0", [("(Topology) Numa Node", "0")])]

/-- The `lscpu --parse=NODE,CPU` output of the counterexample run. -/
def cexLscpu : String := "# comment\n0,0\n0,1"

/-- Counterexample to C8 as stated: over the same fixed tool outputs, two
runs observing different wall-clock times print different text (the
generated-by banner embeds the timestamp), so the output is not
byte-identical. -/
theorem output_not_byte_identical :
    ((gresConf cexResolve "node1.cluster" "amd_gres_builder.py" "2024-01-01 00:00:00"
        cexLscpu cexRawSerial cexRawUuid cexRawFile cexRawTopo cexRawType
        cexRawCores).toOption.getD []
      ≠ (gresConf cexResolve "node1.cluster" "amd_gres_builder.py" "2024-01-02 00:00:00"
          cexLscpu cexRawSerial cexRawUuid cexRawFile cexRawTopo cexRawType
          cexRawCores).toOption.getD [])
    ∧ (gresConf cexResolve "node1.cluster" "amd_gres_builder.py" "2024-01-01 00:00:00"
        cexLscpu cexRawSerial cexRawUuid cexRawFile cexRawTopo cexRawType
        cexRawCores).isOk = true := by
  refine ⟨by decide, by decide⟩

theorem output_identical_except_banner_witness :
    ((gresConf cexResolve "node1.cluster" "amd_gres_builder.py" "2024-01-01 00:00:00"
        cexLscpu cexRawSerial cexRawUuid cexRawFile cexRawTopo cexRawType
        cexRawCores).toOption.getD []).length
      = ((gresConf cexResolve "node1.cluster" "amd_gres_builder.py" "2024-01-02 00:00:00"
          cexLscpu cexRawSerial cexRawUuid cexRawFile cexRawTopo cexRawType
          cexRawCores).toOption.getD []).length
    ∧ ((gresConf cexResolve "node1.cluster" "amd_gres_builder.py" "2024-01-01 00:00:00"
        cexLscpu cexRawSerial cexRawUuid cexRawFile cexRawTopo cexRawType
        cexRawCores).toOption.getD []).getD 3 ""
      = ((gresConf cexResolve "node1.cluster" "amd_gres_builder.py" "2024-01-02 00:00:00"
          cexLscpu cexRawSerial cexRawUuid cexRawFile cexRawTopo cexRawType
          cexRawCores).toOption.getD []).getD 3 "" :=
  ⟨(output_identical_except_banner cexResolve "node1.cluster" "amd_gres_builder.py"
      "2024-01-01 00:00:00" "2024-01-02 00:00:00" cexLscpu cexRawSerial cexRawUuid
      cexRawFile cexRawTopo cexRawType cexRawCores).2.1,
   (output_identical_except_banner cexResolve "node1.cluster" "amd_gres_builder.py"
      "2024-01-01 00:00:00" "2024-01-02 00:00:00" cexLscpu cexRawSerial cexRawUuid
      cexRawFile cexRawTopo cexRawType cexRawCores).2.2 3 (by decide)⟩

theorem filterMap_eq_map_filter {α β : Type} (f : α → Option β) (p : α → Bool)
    (g : α → β) (hf : ∀ a, f a = if p a = true then some (g a) else none) :
    ∀ l : List α, l.filterMap f = (l.filter p).map g := by
  intro l
  induction l with
  | nil => rfl
  | cons a t ih =>
    rw [List.filterMap_cons, hf a]
    by_cases hp : p a = true
    · rw [if_pos hp, List.filter_cons_of_pos hp, List.map_cons, ih]
    · rw [if_neg hp, List.filter_cons_of_neg hp, ih]

/-- The pair list inside a resource line: exactly the present fields, in the
fixed order, each rendered `key=value`. -/
theorem formatLine_eq (v : Inner) :
    formatLine v = pyJoin " " ((gresFieldsOrder.filter (fun k => isPresent v k)).map
      (fun k => k ++ "=" ++ gvalRender ((v.lookup k).getD GVal.null))) := by
  rw [formatLine]
  congr 1
  apply filterMap_eq_map_filter
  intro k
  rcases hlk : v.lookup k with _ | g
  · simp [isPresent, hlk]
  · by_cases hg : g = GVal.null
    · simp [isPresent, hlk, hg]
    · simp [isPresent, hlk, hg]

theorem toList_append (a b : String) : (a ++ b).toList = a.toList ++ b.toList :=
  String.data_append a b

theorem startsWithChar_append_left {c : Char} (a b : String)
    (h : startsWithChar c a = true) : startsWithChar c (a ++ b) = true := by
  rw [startsWithChar] at h ⊢
  rcases hal : a.toList with _ | ⟨x, xs⟩
  · rw [hal] at h
    exact absurd h (by simp)
  · rw [hal] at h
    rw [toList_append, hal]
    exact h

theorem startsWithChar_append_left_false {c : Char} (a b : String)
    (hne : a.toList ≠ []) (h : startsWithChar c a = false) :
    startsWithChar c (a ++ b) = false := by
  rw [startsWithChar] at h ⊢
  rcases hal : a.toList with _ | ⟨x, xs⟩
  · exact absurd hal hne
  · rw [hal] at h
    rw [toList_append, hal]
    exact h

theorem comment_starts_hash (idx : Nat) (v : Inner) :
    startsWithChar '#' (gpuCommentD idx v) = true := by
  rw [gpuCommentD]
  apply startsWithChar_append_left
  apply startsWithChar_append_left
  apply startsWithChar_append_left
  apply startsWithChar_append_left
  apply startsWithChar_append_left
  decide

theorem pyJoin_space_not_hash :
    ∀ parts : List String, (∀ part ∈ parts, startsWithChar '#' part = false) →
      startsWithChar '#' (pyJoin " " parts) = false := by
  intro parts
  induction parts with
  | nil => intro _; decide
  | cons x rest ih =>
    intro h
    cases rest with
    | nil => exact h x (List.mem_cons_self _ _)
    | cons y t =>
      show startsWithChar '#' (x ++ " " ++ pyJoin " " (y :: t)) = false
      rcases hx : x.toList with _ | ⟨cx, cxs⟩
      · have h1 : (x ++ " ").toList = [' '] := by
          rw [toList_append, hx]
          rfl
        apply startsWithChar_append_left_false
        · rw [h1]
          simp
        · rw [startsWithChar, h1]
          decide
      · apply startsWithChar_append_left_false
        · rw [toList_append, hx]
          simp
        · exact startsWithChar_append_left_false x " " (by rw [hx]; simp)
            (h x (List.mem_cons_self _ _))

theorem formatLine_not_hash (v : Inner) :
    startsWithChar '#' (formatLine v) = false := by
  rw [formatLine_eq]
  apply pyJoin_space_not_hash
  intro part hpart
  rw [List.mem_map] at hpart
  obtain ⟨k, hk, hkp⟩ := hpart
  have hkm : k ∈ gresFieldsOrder := (List.mem_filter.mp hk).1
  rw [← hkp]
  show startsWithChar '#' (k ++ "=" ++ gvalRender ((v.lookup k).getD GVal.null)) = false
  apply startsWithChar_append_left_false
  · fin_cases hkm <;> decide
  · fin_cases hkm <;> decide

theorem enum_map_snd {α : Type} (l : List α) : l.enum.map Prod.snd = l :=
  List.enumFrom_map_snd 0 l

theorem resourceLines_eq (records : Dict) :
    ((records.enum.map (fun q => [gpuCommentD q.1 q.2.2, formatLine q.2.2])).flatten).filter
      (fun s => !startsWithChar '#' s) = records.map (fun p => formatLine p.2) := by
  have gen : ∀ l : List (Nat × (String × Inner)),
      ((l.map (fun q => [gpuCommentD q.1 q.2.2, formatLine q.2.2])).flatten).filter
        (fun s => !startsWithChar '#' s) = l.map (fun q => formatLine q.2.2) := by
    intro l
    induction l with
    | nil => rfl
    | cons q t ih =>
      rw [List.map_cons, List.flatten_cons, List.filter_append, ih]
      have h1 := comment_starts_hash q.1 q.2.2
      have h2 := formatLine_not_hash q.2.2
      simp [h1, h2]
  rw [gen records.enum, show (fun (q : Nat × (String × Inner)) => formatLine q.2.2)
    = (fun (p : String × Inner) => formatLine p.2) ∘ Prod.snd from rfl,
    ← List.map_map, enum_map_snd]

theorem commentBlocks_ok (records : Dict)
    (hids : ∀ p ∈ records, (∃ gu, p.2.lookup "UUID" = some gu)
        ∧ (∃ gs, p.2.lookup "Serial" = some gs)) :
    commentBlocks records
      = .ok (records.enum.map (fun q => [gpuCommentD q.1 q.2.2, formatLine q.2.2])) := by
  rw [commentBlocks]
  apply mapMExcept_ok_of_forall
  intro q hq
  have hqm : q.2 ∈ records := by
    have := List.mem_map_of_mem Prod.snd hq
    rw [enum_map_snd] at this
    exact this
  obtain ⟨⟨gu, hu⟩, ⟨gs, hs⟩⟩ := hids q.2 hqm
  have hcm : gpuComment q.1 q.2.2 = .ok (gpuCommentD q.1 q.2.2) := by
    rw [gpuComment, gpuCommentD, hu, hs]
    rfl
  rw [hcm]

/-- C7: for every final record list whose records carry the identity fields
(so the comment lines can be printed) and the constant fields with non-null
values, the printed output's non-comment lines are exactly one resource line
per record, in order — so there are exactly `N` of them; each resource line
is the space-joined `key=value` rendering of exactly the present (non-`None`)
fields, in the fixed order NodeName, Name, Type, Autodetect, Count, Cores,
Links, Flags, File, and every constant field appears in it while absent
fields are omitted. -/
theorem gres_output_resource_lines (unameNode scriptName date : String)
    (records : Dict)
    (hids : ∀ p ∈ records, (∃ gu, p.2.lookup "UUID" = some gu)
        ∧ (∃ gs, p.2.lookup "Serial" = some gs))
    (hconst : ∀ p ∈ records, ∀ f ∈ constFieldNames,
        ∃ g, p.2.lookup f = some g ∧ g ≠ GVal.null) :
    ∃ out, renderOutput unameNode scriptName date records = .ok out
      ∧ out.filter (fun s => !startsWithChar '#' s)
          = records.map (fun p => formatLine p.2)
      ∧ (out.filter (fun s => !startsWithChar '#' s)).length = records.length
      ∧ ∀ p ∈ records,
          formatLine p.2 = pyJoin " "
            ((gresFieldsOrder.filter (fun k => isPresent p.2 k)).map
              (fun k => k ++ "=" ++ gvalRender ((p.2.lookup k).getD GVal.null)))
          ∧ ∀ f ∈ constFieldNames,
              f ∈ gresFieldsOrder.filter (fun k => isPresent p.2 k) := by
  have hcb := commentBlocks_ok records hids
  have hfil : ([hashLine,
      "# AMD GPU " ++ quoteChar ++ "gres.conf" ++ quoteChar ++ " for host "
        ++ quoteChar ++ unameNode ++ quoteChar,
      "# Generated by " ++ scriptName ++ " on " ++ date]
      ++ (records.enum.map (fun q => [gpuCommentD q.1 q.2.2, formatLine q.2.2])).flatten
      ++ [hashLine]).filter (fun s => !startsWithChar '#' s)
      = records.map (fun p => formatLine p.2) := by
    rw [List.filter_append, List.filter_append, resourceLines_eq]
    have hb1 : startsWithChar '#' hashLine = true := by decide
    have hb2 : startsWithChar '#' ("# AMD GPU " ++ quoteChar ++ "gres.conf"
        ++ quoteChar ++ " for host " ++ quoteChar ++ unameNode ++ quoteChar) = true := by
      apply startsWithChar_append_left
      apply startsWithChar_append_left
      apply startsWithChar_append_left
      apply startsWithChar_append_left
      apply startsWithChar_append_left
      apply startsWithChar_append_left
      decide
    have hb3 : startsWithChar '#' ("# Generated by " ++ scriptName ++ " on " ++ date)
        = true := by
      apply startsWithChar_append_left
      apply startsWithChar_append_left
      apply startsWithChar_append_left
      decide
    simp [hb1, hb2, hb3]
  refine ⟨[hashLine,
      "# AMD GPU " ++ quoteChar ++ "gres.conf" ++ quoteChar ++ " for host "
        ++ quoteChar ++ unameNode ++ quoteChar,
      "# Generated by " ++ scriptName ++ " on " ++ date]
      ++ (records.enum.map (fun q => [gpuCommentD q.1 q.2.2, formatLine q.2.2])).flatten
      ++ [hashLine], ?_, hfil, ?_, ?_⟩
  · rw [renderOutput, hcb]
  · rw [hfil, List.length_map]
  · intro p hp
    refine ⟨formatLine_eq p.2, ?_⟩
    intro f hf
    apply List.mem_filter.mpr
    refine ⟨?_, ?_⟩
    · fin_cases hf <;> decide
    · obtain ⟨g, hg, hgn⟩ := hconst p hp f hf
      rw [isPresent, hg]
      simp [hgn]

/-- A complete final record as the pipeline produces it, exercising the
output formatter. -/
def recordW : Inner :=
  [("File", GVal.s "/dev/dri/renderD128"), ("Links", GVal.s "-1,0"),
   ("Cores", GVal.s "0-1"), ("Type", GVal.s "mi210"), ("UUID", GVal.s "0xabc"),
   ("Serial", GVal.s "S1"), ("Name", GVal.s "gpu"), ("NodeName", GVal.s "node1"),
   ("Autodetect", GVal.s "off"), ("Count", GVal.n 1),
   ("Flags", GVal.s "amd_gpu_env")]

theorem gres_output_resource_lines_witness :
    ∃ out, renderOutput "node1" "amd_gres_builder.py" "2024-01-01 00:00:00"
        [("card0", recordW)] = .ok out
      ∧ out.filter (fun s => !startsWithChar '#' s)
          = [("card0", recordW)].map (fun p => formatLine p.2)
      ∧ (out.filter (fun s => !startsWithChar '#' s)).length
          = [("card0", recordW)].length
      ∧ ∀ p ∈ [("card0", recordW)],
          formatLine p.2 = pyJoin " "
            ((gresFieldsOrder.filter (fun k => isPresent p.2 k)).map
              (fun k => k ++ "=" ++ gvalRender ((p.2.lookup k).getD GVal.null)))
          ∧ ∀ f ∈ constFieldNames,
              f ∈ gresFieldsOrder.filter (fun k => isPresent p.2 k) := by
  apply gres_output_resource_lines "node1" "amd_gres_builder.py" "2024-01-01 00:00:00"
    [("card0", recordW)]
  · intro p hp
    simp only [List.mem_cons, List.not_mem_nil, or_false] at hp
    subst hp
    exact ⟨⟨GVal.s "0xabc", rfl⟩, ⟨GVal.s "S1", rfl⟩⟩
  · intro p hp f hf
    simp only [List.mem_cons, List.not_mem_nil, or_false] at hp
    subst hp
    fin_cases hf
    · exact ⟨GVal.s "gpu", rfl, by decide⟩
    · exact ⟨GVal.s "node1", rfl, by decide⟩
    · exact ⟨GVal.s "off", rfl, by decide⟩
    · exact ⟨GVal.n 1, rfl, by decide⟩
    · exact ⟨GVal.s "amd_gpu_env", rfl, by decide⟩

end AmdGres

